import Mathlib

/-!
# MiyukiRenderer: sampler integrator, direct lighting estimator, image loader

A shallow embedding of `src/integrators/integrator.cc` and `src/core/texture.cc`.

Conventions of the embedding.

* An `int` is a 32-bit two's complement integer. The embedding computes with `Int` and
  applies `wrapInt` to the result of every `int` addition and multiplication, so a result
  outside `[-2^31, 2^31)` wraps around, as it does in the compiled program.
* A loop whose exit depends on such a counter is given a fuel argument: an upper bound on
  the number of iterations that are run. If the fuel runs out the loop is still running.
* A `Float` is modelled by `Flt`: a rational, `+Inf`, `-Inf` or `NaN`. The result of an
  arithmetic operation underflows to `0` and overflows to an infinity at the bounds of the
  32-bit IEEE format; the rounding of the mantissa is not modelled.
* Calls into the rest of the renderer (scene, lights, BSDFs, sampler, film) are
  fields of an environment record; every call made by an embedded function is
  appended to a trace, so that "calls" and "does not call" are statements
  about that trace.
* `Thread::ParallelFor` is modelled by running the tile bodies one after the
  other; the film is the log of its `addSample` calls.
-/

namespace Miyuki

/-! ## Machine integers -/

/-- The `int` that an operation yields when its exact result is `z`: the representative of
`z` modulo `2^32` in `[-2^31, 2^31)`. -/
def wrapInt (z : Int) : Int := (z + 2147483648) % 4294967296 - 2147483648

/-! ## Tile grid and Hilbert enumeration (`SamplerIntegrator::render`, lines 80-93) -/

/-- The type `Point2i`: two `int` components. -/
structure Point2i where
  x : Int
  y : Int
deriving DecidableEq, Repr

/-- Line 82: `film.imageDimension() / TileSize + Point2i{1, 1}`, component-wise `int`
division (rounding towards zero) followed by the `int` addition of one. -/
def nTiles (imageDimension : Point2i) (TileSize : Int) : Point2i :=
  ⟨wrapInt (imageDimension.x.tdiv TileSize + 1), wrapInt (imageDimension.y.tdiv TileSize + 1)⟩

/-- Search for the least `m` with `n ≤ 2 ^ m`, starting at `m`, with `fuel` steps left. -/
def ceilLog2Aux (n : Nat) : Nat → Nat → Nat
  | 0, m => m
  | fuel + 1, m => if n ≤ 2 ^ m then m else ceilLog2Aux n fuel (m + 1)

/-- The value of `std::ceil(std::log2(n))` for an integer `n ≥ 1`: the least `m` with
`n ≤ 2 ^ m` (the search needs at most `n` steps). -/
def ceilLog2 (n : Nat) : Nat := ceilLog2Aux n n 0

/-- Line 84: `int M = std::ceil(std::log2(std::max(nTiles.x(), nTiles.y())))`. For a
maximum below `1` the logarithm is not a number and the conversion to `int` is undefined;
the embedding then yields `0`. -/
def hilbertOrder (nT : Point2i) : Nat := ceilLog2 (max nT.x nT.y).toNat

/-- Lines 87-93: the loop `for (int i = 0; i < pow(2, M + M); i++)` from the counter value
`i` on, with the list built so far. The body calls `d2xy(M, i, tx, ty)`, skips the tile when
`tx >= nTiles.x() || ty >= nTiles.y()` and otherwise appends `(tx, ty)`; then `i++` is an
`int` increment. The comparison is made in `double`, where `i` and the bound are exact. The
third-party routine `d2xy` is a parameter. The result is `none` when `fuel` iterations have
been run and the loop has not left. -/
def hilbertLoop (d2xy : Int → Int → Int × Int) (nT : Point2i) (M : Nat) :
    Nat → Int → List Point2i → Option (List Point2i)
  | 0, _, _ => none
  | fuel + 1, i, acc =>
    if i < 2 ^ (M + M) then
      if (d2xy M i).1 ≥ nT.x ∨ (d2xy M i).2 ≥ nT.y then
        hilbertLoop d2xy nT M fuel (wrapInt (i + 1)) acc
      else
        hilbertLoop d2xy nT M fuel (wrapInt (i + 1)) (acc ++ [⟨(d2xy M i).1, (d2xy M i).2⟩])
    else some acc

/-- Lines 84-93: the list `hilbertMapping` built by the loop, started at `i = 0` with the
empty list. (The list holds `Point2f`; an integer of magnitude up to `2^24` is stored in a
`float` and read back unchanged.) -/
def hilbertMapping (d2xy : Int → Int → Int × Int) (nT : Point2i) (fuel : Nat) :
    Option (List Point2i) :=
  hilbertLoop d2xy nT (hilbertOrder nT) fuel 0 []

/-- The list that the loop of lines 87-93 builds when it runs through `i = 0, ...,
2^(2M) - 1` and leaves. -/
def hilbertTiles (d2xy : Int → Int → Int × Int) (nT : Point2i) : List Point2i :=
  ((List.range (2 ^ (hilbertOrder nT + hilbertOrder nT))).map
    (fun i : Nat => (⟨(d2xy (hilbertOrder nT) i).1, (d2xy (hilbertOrder nT) i).2⟩ : Point2i))).filter
    (fun t => !(decide (t.x ≥ nT.x) || decide (t.y ≥ nT.y)))

/-- The property of an order-`M` Hilbert index-to-coordinate map that the enumeration relies
on: `f` maps the indices `0 .. 4^M - 1` one-to-one onto the cells of the `2^M × 2^M`
square. -/
def IsHilbertMap (M : Nat) (f : Int → Int × Int) : Prop :=
  (∀ i : Nat, i < 2 ^ (M + M) →
    0 ≤ (f i).1 ∧ (f i).1 < 2 ^ M ∧ 0 ≤ (f i).2 ∧ (f i).2 < 2 ^ M) ∧
  (∀ i : Nat, i < 2 ^ (M + M) → ∀ j : Nat, j < 2 ^ (M + M) → f i = f j → i = j) ∧
  (∀ x : Nat, x < 2 ^ M → ∀ y : Nat, y < 2 ^ M →
    ∃ i : Nat, i < 2 ^ (M + M) ∧ f i = ((x : Int), (y : Int)))

/-- Modelled from the spec: the third-party header `thirdparty/hilbert/hilbert_curve.hpp`
is not among the sources. The spec calls for "a Hilbert-curve ordering of length `2^(2M)`
over tile coordinates"; this is the quadrant rotation step of the usual
index-to-coordinate conversion (`s` is the side of the sub-square built so far). -/
def rot (s : Nat) (p : Nat × Nat) (rx ry : Nat) : Nat × Nat :=
  if ry = 0 then
    if rx = 1 then (s - 1 - p.2, s - 1 - p.1) else (p.2, p.1)
  else p

/-- Modelled from the spec: the loop of the index-to-coordinate conversion, `k` rounds left,
current side `s`, remaining index `t`, position `p`. -/
def d2xyLoop : Nat → Nat → Nat → Nat × Nat → Nat × Nat
  | 0, _, _, p => p
  | k + 1, s, t, p =>
    let rx := (t / 2) % 2
    let ry := (t + rx) % 2
    let q := rot s p rx ry
    d2xyLoop k (2 * s) (t / 4) (q.1 + s * rx, q.2 + s * ry)

/-- Modelled from the spec: the order-`m` Hilbert index-to-coordinate map on the indices
`d ≥ 0` (`ry = 1 & (t ^ rx)` is the parity of `t + rx`). -/
def d2xyNat (m d : Nat) : Nat × Nat := d2xyLoop m 1 d (0, 0)

/-- Modelled from the spec: `d2xy(m, d, x, y)` on `int` arguments. Only the values at
`m ≥ 0` and `d ≥ 0` are those of a Hilbert map; a negative `d` is passed only after the
counter of the enumeration has wrapped around. -/
def d2xy (m d : Int) : Int × Int :=
  (((d2xyNat m.toNat d.toNat).1 : Int), ((d2xyNat m.toNat d.toNat).2 : Int))

/-! ## Floats, spectra and the film -/

/-- A `Float` value: a rational, `+Inf`, `-Inf` or `NaN`. -/
inductive Flt where
  | fin (q : ℚ)
  | pinf
  | ninf
  | nan
deriving DecidableEq

namespace Flt

/-- The `Float` that an arithmetic operation yields when its exact result is `q`. The
typedef `Float` is declared outside the sources and is taken to be the 32-bit IEEE format:
a magnitude of at most `2^-150`, half the least positive value, becomes `0`, and a magnitude
of at least `(2 - 2^-24) * 2^127` becomes an infinity. In between the mantissa is not
rounded. -/
def ofExact (q : ℚ) : Flt :=
  if |q| ≤ 1 / 2 ^ 150 then fin 0
  else if (2 - 1 / 2 ^ 24) * 2 ^ 127 ≤ |q| then (if q < 0 then ninf else pinf)
  else fin q

/-- The comparison `a < b` of floats; false as soon as one side is `NaN`. -/
def lt : Flt → Flt → Bool
  | nan, _ => false
  | _, nan => false
  | fin a, fin b => decide (a < b)
  | ninf, ninf => false
  | ninf, _ => true
  | _, ninf => false
  | pinf, _ => false
  | fin _, pinf => true

/-- The comparison `a <= b` of floats; false as soon as one side is `NaN`. -/
def le : Flt → Flt → Bool
  | nan, _ => false
  | _, nan => false
  | fin a, fin b => decide (a ≤ b)
  | ninf, _ => true
  | _, pinf => true
  | pinf, _ => false
  | fin _, ninf => false

/-- The test `std::isfinite`. -/
def isFinite : Flt → Bool
  | fin _ => true
  | _ => false

/-- Sign of a float that is not `NaN` and not zero: `true` for negative. -/
def isNeg : Flt → Bool
  | fin q => decide (q < 0)
  | ninf => true
  | _ => false

/-- Float addition. -/
def add : Flt → Flt → Flt
  | nan, _ => nan
  | _, nan => nan
  | fin a, fin b => ofExact (a + b)
  | pinf, ninf => nan
  | ninf, pinf => nan
  | pinf, _ => pinf
  | _, pinf => pinf
  | ninf, _ => ninf
  | _, ninf => ninf

/-- Float multiplication. -/
def mul : Flt → Flt → Flt
  | nan, _ => nan
  | _, nan => nan
  | fin a, fin b => ofExact (a * b)
  | a, b =>
    if a = fin 0 ∨ b = fin 0 then nan
    else if a.isNeg = b.isNeg then pinf else ninf

/-- Float division. -/
def div : Flt → Flt → Flt
  | nan, _ => nan
  | _, nan => nan
  | fin a, fin b =>
    if b = 0 then (if a = 0 then nan else if a < 0 then ninf else pinf) else ofExact (a / b)
  | fin _, _ => fin 0
  | a, fin b => if a.isNeg = decide (b < 0) then pinf else ninf
  | _, _ => nan

/-- Float absolute value. -/
def abs : Flt → Flt
  | fin q => fin |q|
  | ninf => pinf
  | a => a

/-- Float negation. -/
def neg : Flt → Flt
  | fin q => fin (-q)
  | pinf => ninf
  | ninf => pinf
  | nan => nan

end Flt

/-- An RGB `Spectrum`. -/
structure Spectrum where
  r : Flt
  g : Flt
  b : Flt
deriving DecidableEq

namespace Spectrum

/-- Modelled from the spec: the class `Spectrum` is declared outside the sources. This is
`Spectrum(0, 0, 0)`, and also the value of `return {}` in `importanceSampleOneLight`, of which
the spec says "If none, return 0". -/
def zero : Spectrum := ⟨Flt.fin 0, Flt.fin 0, Flt.fin 0⟩

/-- The spectrum `Spectrum(1, 1, 1)`. -/
def one : Spectrum := ⟨Flt.fin 1, Flt.fin 1, Flt.fin 1⟩

/-- The three channels of a spectrum. -/
def channels (s : Spectrum) : List Flt := [s.r, s.g, s.b]

/-- Channel-wise sum, `operator+`. -/
def add (s t : Spectrum) : Spectrum := ⟨s.r.add t.r, s.g.add t.g, s.b.add t.b⟩

/-- Channel-wise product, `operator*`. -/
def mul (s t : Spectrum) : Spectrum := ⟨s.r.mul t.r, s.g.mul t.g, s.b.mul t.b⟩

/-- Product with a scalar. -/
def scale (s : Spectrum) (k : Flt) : Spectrum := ⟨s.r.mul k, s.g.mul k, s.b.mul k⟩

/-- Quotient by a scalar. -/
def divScalar (s : Spectrum) (k : Flt) : Spectrum := ⟨s.r.div k, s.g.div k, s.b.div k⟩

/-- The test `isBlack()`: every channel compares equal to zero. -/
def isBlack (s : Spectrum) : Bool :=
  decide (s.r = Flt.fin 0) && decide (s.g = Flt.fin 0) && decide (s.b = Flt.fin 0)

end Spectrum

/-- Modelled from the spec: `removeNaNs` (`sanitize`) is declared outside the sources; the
spec says "replace NaN/Inf channels with 0". This is its action on one channel. -/
def sanitizeChannel : Flt → Flt
  | Flt.fin q => Flt.fin q
  | _ => Flt.fin 0

/-- Modelled from the spec: `removeNaNs`, "replace NaN/Inf channels with 0". -/
def removeNaNs (s : Spectrum) : Spectrum :=
  ⟨sanitizeChannel s.r, sanitizeChannel s.g, sanitizeChannel s.b⟩

/-- Modelled from the spec: `clampRadiance` is declared outside the sources. The spec says
"cap each channel at `maxRayIntensity`", states that after it "all channels are finite and in
`[0, maxRayIntensity]`", and gives `(0,0,0)` as the film pixel of an empty scene: a channel
above `maxRayIntensity` is replaced by `maxRayIntensity`, and a negative result by `0`. -/
def clampChannel (c maxRayIntensity : Flt) : Flt :=
  let capped := if Flt.lt maxRayIntensity c then maxRayIntensity else c
  if Flt.lt capped (Flt.fin 0) then Flt.fin 0 else capped

/-- Modelled from the spec: `clampRadiance`, the clamp of each channel to
`[0, maxRayIntensity]`. -/
def clampRadiance (s : Spectrum) (maxRayIntensity : Flt) : Spectrum :=
  ⟨clampChannel s.r maxRayIntensity, clampChannel s.g maxRayIntensity,
    clampChannel s.b maxRayIntensity⟩

/-- A channel is finite and lies in `[0, maxRayIntensity]`. -/
def InRange (c maxRayIntensity : Flt) : Prop :=
  c.isFinite = true ∧ Flt.le (Flt.fin 0) c = true ∧ Flt.le c maxRayIntensity = true

/-- One call `film.addSample({x, y}, Li, weight)`. -/
structure Deposit where
  x : Int
  y : Int
  Li : Spectrum
  weight : Flt
deriving DecidableEq

/-- Modelled from the spec: the film class is declared outside the sources; the spec gives
`add_sample(pixel, Spectrum, weight)`. The film is the log of the samples added to it. -/
abbrev Film := List Deposit

/-- Modelled from the spec: `film.addSample` records the sample. -/
def Film.addSample (film : Film) (x y : Int) (Li : Spectrum) (weight : Flt) : Film :=
  film ++ [⟨x, y, Li, weight⟩]

/-- The deposits of a film log that went to pixel `(x, y)`. -/
def Film.samplesAt (film : Film) (x y : Int) : Nat :=
  film.countP (fun d => decide (d.x = x) && decide (d.y = y))

/-! ## Geometry, scattering events and the environment of the estimator -/

/-- The type `Point2f`. -/
structure Point2f where
  x : Flt
  y : Flt
deriving DecidableEq

/-- The type `Vec3f`. -/
structure Vec3f where
  x : Flt
  y : Flt
  z : Flt
deriving DecidableEq

namespace Vec3f

/-- Modelled from the spec: `Vec3f` is declared outside the sources (the spec writes
`wi · Ns`); the dot product. -/
def dot (a b : Vec3f) : Flt := ((a.x.mul b.x).add (a.y.mul b.y)).add (a.z.mul b.z)

/-- Modelled from the spec: `Vec3f::absDot`, written `|wi · Ns|` in the spec. -/
def absDot (a b : Vec3f) : Flt := (dot a b).abs

/-- Modelled from the spec: product of a scalar and a vector, as in `-1 * wi`. -/
def smul (k : Flt) (v : Vec3f) : Vec3f := ⟨k.mul v.x, k.mul v.y, k.mul v.z⟩

/-- Modelled from the spec: difference of two vectors. -/
def sub (a b : Vec3f) : Vec3f := ⟨a.x.add b.x.neg, a.y.add b.y.neg, a.z.add b.z.neg⟩

end Vec3f

/-- A handle to a `Light` object. -/
structure Light where
  id : Nat
deriving DecidableEq

/-- The flag set `BSDFLobe`. -/
abbrev BSDFLobe := Nat

/-- The enumeration `TransportMode` (`scatteringevent.h`, lines 16-19). -/
inductive TransportMode where
  | radiance
  | importance
deriving DecidableEq

/-- The fields of an `Intersection` that the integrator reads; `primitiveLight` is
`isct.primitive->light` (absent when the pointer is null). -/
structure Intersection where
  ref : Vec3f
  Ng : Vec3f
  Ns : Vec3f
  uv : Point2f
  geomId : Int
  primId : Int
  primitiveLight : Option Light
deriving DecidableEq

/-- A `Ray` with its self-intersection exclusion ids. -/
structure Ray where
  o : Vec3f
  d : Vec3f
  excludeGeomId : Int
  excludePrimId : Int
deriving DecidableEq

/-- The class `ScatteringEvent` (`scatteringevent.h`, lines 23-77). `bsdf` is a handle to the
BSDF; the coordinate system is reached through the environment. -/
structure ScatteringEvent where
  intersection : Intersection
  u : Point2f
  bsdf : Nat
  wi : Vec3f
  wo : Vec3f
  wiW : Vec3f
  woW : Vec3f
  pdf : Flt
  bsdfLobe : BSDFLobe
  mode : TransportMode
deriving DecidableEq

/-- The accessor `ScatteringEvent::Ns` (line 40). -/
def ScatteringEvent.Ns (e : ScatteringEvent) : Vec3f := e.intersection.Ns

/-- The method `ScatteringEvent::spawnRay` (lines 61-66). -/
def ScatteringEvent.spawnRay (e : ScatteringEvent) (wi : Vec3f) : Ray :=
  ⟨e.intersection.ref, wi, e.intersection.geomId, e.intersection.primId⟩

/-- State of a `Sampler`: the number of dimensions drawn so far. -/
structure Sampler where
  dimension : Nat
deriving DecidableEq

/-- The structure `RenderContext`: primary ray, sampler, raster pixel and filter weight. -/
structure RenderContext where
  primary : Ray
  sampler : Sampler
  raster : Point2i
  weight : Flt

/-- Result of `light->sampleLi`: radiance, direction, density and visibility tester. -/
structure LightSample where
  Li : Spectrum
  wi : Vec3f
  pdf : Flt
  tester : Nat

/-- A `Bidir::Vertex` of a subpath. -/
structure Vertex where
  ref : Vec3f
  beta : Spectrum
  event : ScatteringEvent
  delta : Bool

/-- A call made by the integrator into the rest of the renderer, or an arithmetic
operation whose operands are recorded. -/
inductive Call where
  | samplerGet2D
  | samplerStartDimension
  | sceneChooseOneLight
  | lightSampleLi
  | lightPdfLi
  | scenePdfLightChoice
  | bsdfF
  | bsdfPdf
  | bsdfSample
  | testerVisible
  | spawnRay
  | sceneIntersect
  | intersectionLe
  | vertexLe
  | createCameraVertex
  | randomWalk
  | importanceSampleOneLight
  | powerHeuristics (a b : Flt)
  | divide (divisor : Flt)
deriving DecidableEq

/-- Everything the integrator calls and does not define: sampler, scene, lights, BSDFs,
coordinate frames and the bidirectional helpers. -/
structure World where
  get2D : Sampler → Point2f × Sampler
  startDimension : Sampler → Nat → Sampler
  chooseOneLight : Sampler → Option (Light × Flt) × Sampler
  sampleLi : Light → Point2f → Intersection → LightSample
  pdfLi : Light → Intersection → Vec3f → Flt
  pdfLightChoice : Light → Flt
  testerVisible : Nat → Bool
  worldToLocal : ScatteringEvent → Vec3f → Vec3f
  bsdfF : ScatteringEvent → Spectrum
  bsdfPdf : ScatteringEvent → Flt
  bsdfSample : ScatteringEvent → Spectrum × ScatteringEvent
  matchFlag : BSDFLobe → BSDFLobe → Bool
  specular : BSDFLobe
  intersect : Ray → Option Intersection
  intersectionLe : Intersection → Vec3f → Spectrum
  vertexLe : Vertex → Vec3f → Spectrum
  normalized : Vec3f → Vec3f
  createCameraVertex : RenderContext → Spectrum → Vertex
  randomWalk : RenderContext → Spectrum → List Vertex × Sampler

/-! ## `Integrator::importanceSampleOneLight` (lines 24-78) -/

/-- Modelled from the spec: `PowerHeuristics` is declared outside the sources; the spec gives
`(a·a) / (a·a + b·b)`, and `0` if both are zero. -/
def PowerHeuristics (a b : Flt) : Flt :=
  if a = Flt.fin 0 ∧ b = Flt.fin 0 then Flt.fin 0
  else (a.mul a).div ((a.mul a).add (b.mul b))

/-- Outcome of one of the two sampling blocks: the accumulated `Ld`, the local copy
`scatteringEvent` and the calls made. -/
structure BlockResult where
  Ld : Spectrum
  scatteringEvent : ScatteringEvent
  trace : List Call

/-- Lines 36-54, the block `// sample light source`. -/
def sampleLightSource (w : World) (light : Light) (pdfLightChoice : Flt) (lightSample : Point2f)
    (event scatteringEvent : ScatteringEvent) (Ld : Spectrum) : BlockResult :=
  let ls := w.sampleLi light lightSample event.intersection
  let wi := ls.wi
  let Li := ls.Li
  let lightPdf := ls.pdf.mul pdfLightChoice
  if Flt.lt (Flt.fin 0) lightPdf && !Li.isBlack then
    let se1 := { scatteringEvent with wiW := wi }
    let se2 := { se1 with wi := w.worldToLocal se1 wi }
    let f := (w.bsdfF se2).scale (Vec3f.absDot wi event.Ns)
    let scatteringPdf := w.bsdfPdf se2
    if f.isBlack then
      ⟨Ld, se2, [Call.lightSampleLi, Call.bsdfF, Call.bsdfPdf]⟩
    else if w.testerVisible ls.tester then
      let weight := PowerHeuristics lightPdf scatteringPdf
      ⟨Ld.add (((f.mul Li).scale weight).divScalar lightPdf), se2,
        [Call.lightSampleLi, Call.bsdfF, Call.bsdfPdf, Call.testerVisible,
          Call.powerHeuristics lightPdf scatteringPdf, Call.divide lightPdf]⟩
    else
      ⟨Ld, se2, [Call.lightSampleLi, Call.bsdfF, Call.bsdfPdf, Call.testerVisible]⟩
  else
    ⟨Ld, scatteringEvent, [Call.lightSampleLi]⟩

/-- Lines 57-62: the BSDF is sampled with `u = bsdfSample`; returns `f` already multiplied
by `absDot(Ns, wi)` and the event as filled in by `bsdf->sample`. -/
def sampledBRDF (w : World) (scatteringEvent : ScatteringEvent) (bsdfSample : Point2f) :
    Spectrum × ScatteringEvent :=
  let se := { scatteringEvent with u := bsdfSample }
  let r := w.bsdfSample se
  (r.1.scale (Vec3f.absDot r.2.Ns r.2.wiW), r.2)

/-- Line 63: the guard of the BSDF block,
`!f.isBlack() && scatteringPdf > 0 && !sampledSpecular`. -/
def brdfGuard (w : World) (f : Spectrum) (se : ScatteringEvent) : Bool :=
  !f.isBlack && Flt.lt (Flt.fin 0) se.pdf && !(w.matchFlag se.bsdfLobe w.specular)

/-- Lines 55-76, the block `// sample brdf`. -/
def sampleBRDF (w : World) (event scatteringEvent : ScatteringEvent) (bsdfSample : Point2f)
    (Ld : Spectrum) : BlockResult :=
  let fs := sampledBRDF w scatteringEvent bsdfSample
  let f := fs.1
  let se := fs.2
  let wi := se.wiW
  let scatteringPdf := se.pdf
  if brdfGuard w f se then
    let ray := se.spawnRay wi
    match w.intersect ray with
    | none => ⟨Ld, se, [Call.bsdfSample, Call.spawnRay, Call.sceneIntersect]⟩
    | some isct =>
      match isct.primitiveLight with
      | none => ⟨Ld, se, [Call.bsdfSample, Call.spawnRay, Call.sceneIntersect]⟩
      | some light =>
        let lightPdf := (w.pdfLi light event.intersection wi).mul (w.pdfLightChoice light)
        let Li := w.intersectionLe isct (Vec3f.smul (Flt.fin (-1)) wi)
        if Flt.lt (Flt.fin 0) lightPdf then
          let weight := PowerHeuristics scatteringPdf lightPdf
          ⟨Ld.add (((f.mul Li).scale weight).divScalar scatteringPdf), se,
            [Call.bsdfSample, Call.spawnRay, Call.sceneIntersect, Call.lightPdfLi,
              Call.scenePdfLightChoice, Call.intersectionLe,
              Call.powerHeuristics scatteringPdf lightPdf, Call.divide scatteringPdf]⟩
        else
          ⟨Ld, se, [Call.bsdfSample, Call.spawnRay, Call.sceneIntersect, Call.lightPdfLi,
            Call.scenePdfLightChoice, Call.intersectionLe]⟩
  else
    ⟨Ld, se, [Call.bsdfSample]⟩

/-- Value returned by the estimator, with the sampler state it leaves and the calls made. -/
structure Estimate where
  Ld : Spectrum
  sampler : Sampler
  trace : List Call

/-- The function `Integrator::importanceSampleOneLight` (lines 24-78). -/
def importanceSampleOneLight (w : World) (sampler : Sampler) (event : ScatteringEvent) :
    Estimate :=
  let Ld := Spectrum.zero
  let s1 := w.get2D sampler
  let lightSample := s1.1
  let s2 := w.get2D s1.2
  let bsdfSample := s2.1
  let c := w.chooseOneLight s2.2
  match c.1 with
  | none => ⟨Spectrum.zero, c.2, [Call.samplerGet2D, Call.samplerGet2D, Call.sceneChooseOneLight]⟩
  | some (light, pdfLightChoice) =>
    let scatteringEvent := event
    let b1 := sampleLightSource w light pdfLightChoice lightSample event scatteringEvent Ld
    let b2 := sampleBRDF w event b1.scatteringEvent bsdfSample b1.Ld
    ⟨b2.Ld, c.2,
      [Call.samplerGet2D, Call.samplerGet2D, Call.sceneChooseOneLight] ++ b1.trace ++ b2.trace⟩

/-! ## `DirectLightingIntegrator::L` (lines 150-170) -/

/-- Lines 161-168, the loop over `depth`: `prev` is `path[depth - 1]`, the list holds
`path[depth], ..., path[N - 1]`. -/
def directLightingLoop (w : World) :
    Vertex → List Vertex → Nat → Bool → Spectrum → Sampler → List Call → Estimate
  | _, [], _, _, Li, sampler, trace => ⟨Li, sampler, trace⟩
  | prev, v :: rest, depth, specular, Li, sampler, trace =>
    let emitted : Spectrum × List Call :=
      if specular || depth == 0 then
        let wo := w.normalized (prev.ref.sub v.ref)
        (Li.add (v.beta.mul (w.vertexLe v wo)), [Call.vertexLe])
      else (Li, [])
    let e := importanceSampleOneLight w sampler v.event
    directLightingLoop w v rest (depth + 1) v.delta (emitted.1.add (v.beta.mul e.Ld)) e.sampler
      (trace ++ emitted.2 ++ [Call.importanceSampleOneLight] ++ e.trace)

/-- The function `DirectLightingIntegrator::L` (lines 150-170); `path.N` is the length of
the list returned by the random walk, and `path[-1]` is the camera vertex `vertices[0]`. -/
def DirectLightingIntegrator.L (w : World) (ctx : RenderContext) : Estimate :=
  let beta := Spectrum.one
  let camera := w.createCameraVertex ctx beta
  let path := w.randomWalk ctx beta
  let Li := Spectrum.zero
  let specular := false
  let sampler := w.startDimension path.2 (4 + 4 * 1)
  directLightingLoop w camera path.1 0 specular Li sampler
    [Call.createCameraVertex, Call.randomWalk, Call.samplerStartDimension]

/-! ## `SamplerIntegrator::render` (lines 80-148) -/

/-- The members of a `SamplerIntegrator` that `render` reads: the tile edge `TileSize`, `spp`,
`maxRayIntensity`, the virtual method `L`, and the Hilbert routine it calls. -/
structure SamplerIntegrator where
  TileSize : Int
  spp : Int
  maxRayIntensity : Flt
  L : RenderContext → Spectrum
  d2xy : Int → Int → Int × Int

/-- The direct lighting integrator: a sampler integrator whose `L` is
`DirectLightingIntegrator::L`. -/
def DirectLightingIntegrator (w : World) (TileSize : Int) (spp : Int) (maxRayIntensity : Flt)
    (d2xy : Int → Int → Int × Int) : SamplerIntegrator :=
  ⟨TileSize, spp, maxRayIntensity, fun ctx => (DirectLightingIntegrator.L w ctx).Ld, d2xy⟩

/-- What `render` uses of the scene: the film dimension and the render context built for the
`s`-th sample of a raster pixel (the argument `s` stands for the arena and sampler state). -/
structure Scene where
  filmWidth : Int
  filmHeight : Int
  getRenderContext : Point2i → Nat → RenderContext

/-- The value `film.imageDimension()`. -/
def Scene.imageDimension (sc : Scene) : Point2i := ⟨sc.filmWidth, sc.filmHeight⟩

/-- State of the body run for one tile: the film and the number of times this body has
polled `scene.processContinuable()`. -/
structure WorkerState where
  film : Film
  polls : Nat

/-- How a loop body ends: it falls through to the next iteration (`next`, also after
`continue`), or it executes `return` (`ret`). -/
inductive Flow where
  | next (st : WorkerState)
  | ret (st : WorkerState)

/-- The state carried by a `Flow`. -/
def Flow.state : Flow → WorkerState
  | Flow.next st => st
  | Flow.ret st => st

/-- A loop `for (int i = lo; i < lo + n; i++) body`, whose body may `return`. -/
def forRange (body : Nat → WorkerState → Flow) : Nat → Nat → WorkerState → Flow
  | 0, _, st => Flow.next st
  | n + 1, i, st =>
    match body i st with
    | Flow.next st1 => forRange body n (i + 1) st1
    | Flow.ret st1 => Flow.ret st1

/-- Lines 127-128: `tx * TileSize + i`, an `int` product followed by an `int` sum. -/
def pixelCoord (TileSize tx : Int) (i : Nat) : Int :=
  wrapInt (wrapInt (tx * TileSize) + i)

/-- Lines 138-141: one sample of pixel `(x, y)`: build the context, evaluate `L`, remove
NaNs, clamp, and add the sample to the film. -/
def addOneSample (I : SamplerIntegrator) (sc : Scene) (x y : Int) (s : Nat) (film : Film) :
    Film :=
  let ctx := sc.getRenderContext ⟨x, y⟩ s
  let Li := removeNaNs (I.L ctx)
  let Li := clampRadiance Li I.maxRayIntensity
  film.addSample x y Li ctx.weight

/-- Lines 134-142: the loop `for (int s = 0; s < spp; s++)`, with `n` iterations left. -/
def sampleLoop (I : SamplerIntegrator) (sc : Scene) (x y : Int) : Nat → Nat → Film → Film
  | 0, _, film => film
  | n + 1, s, film => sampleLoop I sc x y n (s + 1) (addOneSample I sc x y s film)

/-- Lines 124-142: the body of the loop over `j`. The answer of the poll of
`scene.processContinuable()` is `poll k`, where `k` counts the polls of this tile body. -/
def pixelBody (I : SamplerIntegrator) (sc : Scene) (poll : Nat → Bool) (tx ty : Int)
    (i j : Nat) (st : WorkerState) : Flow :=
  if poll st.polls = false then
    Flow.ret ⟨st.film, st.polls + 1⟩
  else
    let x := pixelCoord I.TileSize tx i
    let y := pixelCoord I.TileSize ty j
    if x ≥ sc.filmWidth ∨ y ≥ sc.filmHeight then
      Flow.next ⟨st.film, st.polls + 1⟩
    else
      Flow.next ⟨sampleLoop I sc x y I.spp.toNat 0 st.film, st.polls + 1⟩

/-- Lines 117-146: the lambda run by `ParallelFor` for the tile `(tx, ty)`. The loops
`for (int i = 0; i < TileSize; i++)` make `TileSize` iterations, none if `TileSize ≤ 0`. -/
def tileBody (I : SamplerIntegrator) (sc : Scene) (poll : Nat → Bool) (t : Point2i)
    (film : Film) : WorkerState :=
  (forRange (fun i st => forRange (fun j st1 => pixelBody I sc poll t.x t.y i j st1)
    I.TileSize.toNat 0 st) I.TileSize.toNat 0 ⟨film, 0⟩).state

/-- The loop `Thread::ParallelFor(0u, hilbertMapping.size(), ...)`, the tile bodies run one
after the other; `poll idx` answers the polls made by the body of tile number `idx`. -/
def parallelFor (I : SamplerIntegrator) (sc : Scene) (poll : Nat → Nat → Bool) :
    Nat → List Point2i → Film → Film
  | _, [], film => film
  | idx, t :: rest, film =>
    parallelFor I sc poll (idx + 1) rest (tileBody I sc (poll idx) t film).film

/-- What an execution of `render` has done to the film, and whether it has returned. -/
structure Rendered where
  film : Film
  completed : Bool
deriving DecidableEq

/-- The function `SamplerIntegrator::render` (lines 80-148), as a function of the film; `fuel`
bounds the iterations of the enumeration loop of lines 87-93. While that loop is running no
sample has been added, so when the fuel runs out the film is as it was and `render` has not
returned. The progress reporter and `scene.update()` add no sample and are left out. -/
def render (fuel : Nat) (I : SamplerIntegrator) (sc : Scene) (poll : Nat → Nat → Bool)
    (film : Film) : Rendered :=
  let nT := nTiles sc.imageDimension I.TileSize
  match hilbertMapping I.d2xy nT fuel with
  | none => ⟨film, false⟩
  | some hilbert => ⟨parallelFor I sc poll 0 hilbert film, true⟩

/-- The pixels `(i, j)` of a tile in the order in which the two nested loops visit them. -/
def tilePixels (TileSize : Nat) : List (Nat × Nat) :=
  (List.range TileSize).flatMap (fun i => (List.range TileSize).map (fun j => (i, j)))

/-- The samples that the tile `(tx, ty)` adds for its pixel `(i, j)` when that pixel is
reached: none if the guard of line 129 skips the pixel, `spp` samples otherwise. -/
def pixelSamples (I : SamplerIntegrator) (sc : Scene) (t : Point2i) (p : Nat × Nat) : Film :=
  if pixelCoord I.TileSize t.x p.1 ≥ sc.filmWidth ∨
      pixelCoord I.TileSize t.y p.2 ≥ sc.filmHeight then []
  else sampleLoop I sc (pixelCoord I.TileSize t.x p.1) (pixelCoord I.TileSize t.y p.2)
    I.spp.toNat 0 []

/-- Number of consecutive polls answered `true`, from poll `k` on, among the next `n`. -/
def leadingTrue (poll : Nat → Bool) : Nat → Nat → Nat
  | 0, _ => 0
  | n + 1, k => if poll k = false then 0 else leadingTrue poll n (k + 1) + 1

/-! ## `ImageLoader::load` (`texture.cc`, lines 9-24) and `IO::Image` (`image.cc`) -/

/-- The enumeration `IO::ImageFormat`. -/
inductive ImageFormat where
  | none
  | raw
deriving DecidableEq

/-- The bytes of an image file as `stbi_load` returns them: size and three bytes per pixel. -/
structure RawImage where
  width : Nat
  height : Nat
  data : List Nat
deriving DecidableEq

/-- An `IO::Image` object: its file name, its format and the decoded file. -/
structure Image where
  filename : String
  format : ImageFormat
  raw : RawImage
deriving DecidableEq

/-- The constructor `IO::Image::Image(filename, format)` (`image.cc`, lines 16-40): it throws
when `stbi_load` returns null. `disk` says which files `stbi_load` can read. -/
def Image.construct (disk : String → Option RawImage) (filename : String)
    (format : ImageFormat) : Except String Image :=
  match disk filename with
  | Option.none => Except.error ("Cannot load " ++ filename)
  | some data => Except.ok ⟨filename, format, data⟩

/-- The objects built by `std::make_shared<IO::Image>`; a shared pointer is the index of its
object in this list, so two pointers are the same object exactly when they are equal. -/
abbrev Heap := List Image

/-- The member `images` of the loader: file name to shared pointer. -/
structure ImageLoader where
  images : List (String × Nat)
deriving DecidableEq

/-- The lookup `images.find(filename)`. -/
def ImageLoader.find (loader : ImageLoader) (filename : String) : Option Nat :=
  (loader.images.find? (fun kv => kv.1 == filename)).map Prod.snd

/-- Result of a call of `load`: the pointer returned, and the loader and heap afterwards. -/
structure Loaded where
  ptr : Nat
  loader : ImageLoader
  heap : Heap
deriving DecidableEq

/-- The function `ImageLoader::load` (`texture.cc`, lines 9-24). If the name is found in
`images` the stored pointer is returned; otherwise a new `IO::Image` is constructed and its
pointer returned. The member `images` is not assigned to. The absolute path of lines 10-16
is used only in the log message and is left out. -/
def ImageLoader.load (disk : String → Option RawImage) (loader : ImageLoader) (heap : Heap)
    (filename : String) (format : ImageFormat) : Except String Loaded :=
  match loader.find filename with
  | some ptr => Except.ok ⟨ptr, loader, heap⟩
  | Option.none =>
    match Image.construct disk filename format with
    | Except.error e => Except.error e
    | Except.ok img => Except.ok ⟨heap.length, loader, heap ++ [img]⟩

/-! ## Helpers for stating the claims -/

/-- The spec's `ceil(a / b)` for naturals `a` and `b ≥ 1`. -/
def ceilDiv (a b : Nat) : Nat := (a + b - 1) / b

/-- Line 27: the first `ctx.sampler->get2D()`. -/
def drawnLightSample (w : World) (sampler : Sampler) : Point2f := (w.get2D sampler).1

/-- Line 28: the second `ctx.sampler->get2D()`. -/
def drawnBsdfSample (w : World) (sampler : Sampler) : Point2f :=
  (w.get2D (w.get2D sampler).2).1

/-- Line 29: the answer of `scene.chooseOneLight(ctx.sampler, &pdfLightChoice)`. -/
def chosenLight (w : World) (sampler : Sampler) : Option (Light × Flt) :=
  (w.chooseOneLight (w.get2D (w.get2D sampler).2).2).1

/-- A world for worked examples: one light of density `1` and radiance `(1, 1, 1)` from
direction `+z`, a BSDF with value `(1, 1, 1)`, density `1` and lobe flag `lobe` for the
sampled direction, and a scene in which every ray hits an emitter. -/
def exampleWorld (light : Option (Light × Flt)) (lobe : BSDFLobe) : World where
  get2D := fun s => (⟨Flt.fin 0, Flt.fin 0⟩, ⟨s.dimension + 2⟩)
  startDimension := fun _ d => ⟨d⟩
  chooseOneLight := fun s => (light, ⟨s.dimension + 1⟩)
  sampleLi := fun _ _ _ => ⟨Spectrum.one, ⟨Flt.fin 0, Flt.fin 0, Flt.fin 1⟩, Flt.fin 1, 0⟩
  pdfLi := fun _ _ _ => Flt.fin 1
  pdfLightChoice := fun _ => Flt.fin 1
  testerVisible := fun _ => true
  worldToLocal := fun _ v => v
  bsdfF := fun _ => Spectrum.one
  bsdfPdf := fun _ => Flt.fin 1
  bsdfSample := fun e =>
    (Spectrum.one, { e with wiW := ⟨Flt.fin 0, Flt.fin 0, Flt.fin 1⟩, pdf := Flt.fin 1,
                            bsdfLobe := lobe })
  matchFlag := fun a b => a == b
  specular := 4
  intersect := fun r => some ⟨r.o, r.d, r.d, ⟨Flt.fin 0, Flt.fin 0⟩, 0, 0, some ⟨0⟩⟩
  intersectionLe := fun _ _ => Spectrum.one
  vertexLe := fun _ _ => Spectrum.zero
  normalized := fun v => v
  createCameraVertex := fun ctx beta =>
    ⟨ctx.primary.o, beta,
      ⟨⟨ctx.primary.o, ctx.primary.d, ctx.primary.d, ⟨Flt.fin 0, Flt.fin 0⟩, 0, 0, none⟩,
        ⟨Flt.fin 0, Flt.fin 0⟩, 0, ctx.primary.d, ctx.primary.d, ctx.primary.d, ctx.primary.d,
        Flt.fin 0, 0, TransportMode.importance⟩, false⟩
  randomWalk := fun ctx _ => ([], ctx.sampler)

/-- A scattering event on a surface at the origin with normal `+z`. -/
def exampleEvent : ScatteringEvent :=
  ⟨⟨⟨Flt.fin 0, Flt.fin 0, Flt.fin 0⟩, ⟨Flt.fin 0, Flt.fin 0, Flt.fin 1⟩,
      ⟨Flt.fin 0, Flt.fin 0, Flt.fin 1⟩, ⟨Flt.fin 0, Flt.fin 0⟩, 0, 0, none⟩,
    ⟨Flt.fin 0, Flt.fin 0⟩, 0, ⟨Flt.fin 0, Flt.fin 0, Flt.fin 1⟩, ⟨Flt.fin 0, Flt.fin 0, Flt.fin 1⟩,
    ⟨Flt.fin 0, Flt.fin 0, Flt.fin 1⟩, ⟨Flt.fin 0, Flt.fin 0, Flt.fin 1⟩, Flt.fin 0, 0,
    TransportMode.importance⟩

/-- Lines 36-54 as run by `importanceSampleOneLight`: the light block entered with `Ld = 0`
and the drawn `lightSample`; its `Ld` is the contribution of light sampling alone. -/
def lightBlock (w : World) (sampler : Sampler) (event : ScatteringEvent) (light : Light)
    (pdfLightChoice : Flt) : BlockResult :=
  sampleLightSource w light pdfLightChoice (drawnLightSample w sampler) event event Spectrum.zero

/-- Lines 57-62 as run by `importanceSampleOneLight`: the value `f` and the event reported
by `bsdf->sample` after the light block. -/
def brdfDraw (w : World) (sampler : Sampler) (event : ScatteringEvent) (light : Light)
    (pdfLightChoice : Flt) : Spectrum × ScatteringEvent :=
  sampledBRDF w (lightBlock w sampler event light pdfLightChoice).scatteringEvent
    (drawnBsdfSample w sampler)

/-- The property required of a recorded arithmetic operation: a division has a divisor
`> 0`, and a call `PowerHeuristics(a, b)` has `a > 0`; moreover, unless the product `a*a`
is zero, the denominator `a*a + b*b` is not zero for any value `b` of the other density.
Other calls are unconstrained. -/
def SafeCall : Call → Prop
  | Call.divide d => Flt.lt (Flt.fin 0) d = true
  | Call.powerHeuristics a _ =>
    Flt.lt (Flt.fin 0) a = true ∧
      (a.mul a ≠ Flt.fin 0 → ∀ b : Flt, (a.mul a).add (b.mul b) ≠ Flt.fin 0)
  | _ => True

/-- The example world with one light and a specular sampled lobe, in which the light is
sampled with the density `2^-100` and the BSDF has density `0` for that direction. -/
def underflowWorld : World :=
  { exampleWorld (some (⟨0⟩, Flt.fin 1)) 4 with
    sampleLi := fun _ _ _ =>
      ⟨Spectrum.one, ⟨Flt.fin 0, Flt.fin 0, Flt.fin 1⟩, Flt.fin (1 / 2 ^ 100), 0⟩
    bsdfPdf := fun _ => Flt.fin 0 }

/-- A disk holding the single readable file `a.png` (one black pixel). -/
def exampleDisk (filename : String) : Option RawImage :=
  if filename = "a.png" then some ⟨1, 1, [0, 0, 0]⟩ else Option.none

/-- The sample that `addOneSample` adds for sample number `s` of pixel `(x, y)`. -/
def depositOf (I : SamplerIntegrator) (sc : Scene) (x y : Int) (s : Nat) : Deposit :=
  ⟨x, y, clampRadiance (removeNaNs (I.L (sc.getRenderContext ⟨x, y⟩ s))) I.maxRayIntensity,
    (sc.getRenderContext ⟨x, y⟩ s).weight⟩

/-- The samples that the body of tile `t` adds to the film when its polls are answered by
`poll`: those of the pixels visited before the first poll answered `false`. -/
def tileSamples (I : SamplerIntegrator) (sc : Scene) (poll : Nat → Bool) (t : Point2i) : Film :=
  ((tilePixels I.TileSize.toNat).take
    (leadingTrue poll (I.TileSize.toNat * I.TileSize.toNat) 0)).flatMap (pixelSamples I sc t)

/-- A loop body that polls before each of its `c` items: if the next `c` polls are all
answered `true` it adds the samples of all its items and falls through, otherwise it adds
the samples of the items before the first `false` and returns. -/
def PollsBeforeEach (poll : Nat → Bool) (ps : Nat × Nat → Film) (c : Nat)
    (items : List (Nat × Nat)) (f : WorkerState → Flow) : Prop :=
  items.length = c ∧
  ∀ st, f st =
    if leadingTrue poll c st.polls = c then
      Flow.next ⟨st.film ++ items.flatMap ps, st.polls + c⟩
    else
      Flow.ret ⟨st.film ++ (items.take (leadingTrue poll c st.polls)).flatMap ps,
        st.polls + leadingTrue poll c st.polls + 1⟩

/-- A scene for worked examples: a `W x H` film, a camera at the origin looking along `+z`,
filter weight `1`. -/
def exampleScene (W H : Int) : Scene where
  filmWidth := W
  filmHeight := H
  getRenderContext := fun p s =>
    ⟨⟨⟨Flt.fin 0, Flt.fin 0, Flt.fin 0⟩, ⟨Flt.fin 0, Flt.fin 0, Flt.fin 1⟩, 0, 0⟩, ⟨s⟩, p,
      Flt.fin 1⟩

/-! ### Machine integers -/

theorem wrapInt_of_range (z : Int) (h1 : -2147483648 ≤ z) (h2 : z < 2147483648) :
    wrapInt z = z := by
  unfold wrapInt
  omega

theorem wrapInt_range (z : Int) : -2147483648 ≤ wrapInt z ∧ wrapInt z < 2147483648 := by
  unfold wrapInt
  omega

/-! ### Facts about the tile grid -/

theorem ceilLog2Aux_eq_clog (n : Nat) :
    ∀ fuel m, m ≤ Nat.clog 2 n → Nat.clog 2 n ≤ m + fuel →
      ceilLog2Aux n fuel m = Nat.clog 2 n := by
  intro fuel
  induction fuel with
  | zero => intro m h1 h2; simp only [ceilLog2Aux]; omega
  | succ k ih =>
    intro m h1 h2
    simp only [ceilLog2Aux]
    by_cases h : n ≤ 2 ^ m
    · rw [if_pos h]
      have := (Nat.le_pow_iff_clog_le (by norm_num : 1 < 2)).1 h
      omega
    · rw [if_neg h]
      have h3 : ¬ Nat.clog 2 n ≤ m := fun hc =>
        h ((Nat.le_pow_iff_clog_le (by norm_num : 1 < 2)).2 hc)
      exact ih (m + 1) (by omega) (by omega)

theorem ceilLog2_eq_clog (n : Nat) : ceilLog2 n = Nat.clog 2 n := by
  unfold ceilLog2
  apply ceilLog2Aux_eq_clog
  · exact Nat.zero_le _
  · have h : n ≤ 2 ^ n := Nat.le_of_lt (Nat.lt_two_pow n)
    have := (Nat.le_pow_iff_clog_le (by norm_num : 1 < 2)).1 h
    omega

theorem le_two_pow_ceilLog2 (n : Nat) : n ≤ 2 ^ ceilLog2 n := by
  rw [ceilLog2_eq_clog]
  exact Nat.le_pow_clog (by norm_num) n

theorem ceilLog2_le_of_le_pow (n k : Nat) (h : n ≤ 2 ^ k) : ceilLog2 n ≤ k := by
  rw [ceilLog2_eq_clog]
  exact (Nat.le_pow_iff_clog_le (by norm_num : 1 < 2)).1 h

theorem lt_of_pow_lt_ceilLog2 (n k : Nat) (h : 2 ^ k < n) : k < ceilLog2 n := by
  by_contra hc
  have h1 : ceilLog2 n ≤ k := by omega
  have h2 := le_two_pow_ceilLog2 n
  have h3 : 2 ^ ceilLog2 n ≤ 2 ^ k := Nat.pow_le_pow_right (by norm_num) h1
  omega

theorem nTiles_x_le_pow (nT : Point2i) : nT.x ≤ 2 ^ hilbertOrder nT := by
  have h := le_two_pow_ceilLog2 (max nT.x nT.y).toNat
  have h1 : ((max nT.x nT.y).toNat : Int) ≤ ((2 ^ hilbertOrder nT : Nat) : Int) := by
    exact_mod_cast h
  have h2 : nT.x ≤ ((max nT.x nT.y).toNat : Int) :=
    le_trans (le_max_left _ _) (Int.self_le_toNat _)
  push_cast at h1
  exact le_trans h2 h1

theorem nTiles_y_le_pow (nT : Point2i) : nT.y ≤ 2 ^ hilbertOrder nT := by
  have h := le_two_pow_ceilLog2 (max nT.x nT.y).toNat
  have h1 : ((max nT.x nT.y).toNat : Int) ≤ ((2 ^ hilbertOrder nT : Nat) : Int) := by
    exact_mod_cast h
  have h2 : nT.y ≤ ((max nT.x nT.y).toNat : Int) :=
    le_trans (le_max_right _ _) (Int.self_le_toNat _)
  push_cast at h1
  exact le_trans h2 h1

/-! ### The enumeration loop -/

/-- The tiles that the loop appends while the counter runs through `i, ..., i + n - 1`. -/
theorem hilbertLoop_complete (d2xy : Int → Int → Int × Int) (nT : Point2i) (M : Nat)
    (hfit : 2 ^ (M + M) ≤ 2147483647) :
    ∀ (n i : Nat) (fuel : Nat) (acc : List Point2i), i + n = 2 ^ (M + M) → n < fuel →
      hilbertLoop d2xy nT M fuel i acc =
        some (acc ++ ((List.range' i n).map
          (fun k : Nat => (⟨(d2xy M k).1, (d2xy M k).2⟩ : Point2i))).filter
          (fun t => !(decide (t.x ≥ nT.x) || decide (t.y ≥ nT.y)))) := by
  intro n
  induction n with
  | zero =>
    intro i fuel acc hi hfuel
    obtain ⟨f, rfl⟩ : ∃ f, fuel = f + 1 := ⟨fuel - 1, by omega⟩
    have hnot : ¬ ((i : Int) < 2 ^ (M + M)) := by
      have : ((i : Nat) : Int) = ((2 ^ (M + M) : Nat) : Int) := by
        rw [← hi]; simp
      rw [this]; push_cast; omega
    simp only [hilbertLoop, if_neg hnot, List.range'_zero, List.map_nil, List.filter_nil,
      List.append_nil]
  | succ m ih =>
    intro i fuel acc hi hfuel
    obtain ⟨f, rfl⟩ : ∃ f, fuel = f + 1 := ⟨fuel - 1, by omega⟩
    have hlt : (i : Int) < 2 ^ (M + M) := by
      have : ((i : Nat) : Int) < ((2 ^ (M + M) : Nat) : Int) := by
        exact_mod_cast (by omega : i < 2 ^ (M + M))
      push_cast at this; exact this
    have hw : wrapInt ((i : Int) + 1) = ((i + 1 : Nat) : Int) := by
      rw [wrapInt_of_range]
      · push_cast; rfl
      · omega
      · omega
    simp only [hilbertLoop, if_pos hlt, hw]
    have hrec := fun acc1 => ih (i + 1) f acc1 (by omega) (by omega)
    by_cases hskip : (d2xy M i).1 ≥ nT.x ∨ (d2xy M i).2 ≥ nT.y
    · rw [if_pos hskip, hrec, List.range'_succ, List.map_cons, List.filter_cons]
      have : (!(decide ((d2xy M i).1 ≥ nT.x) || decide ((d2xy M i).2 ≥ nT.y))) = false := by
        rcases hskip with h | h <;> simp [h]
      simp only [this]
      rfl
    · rw [if_neg hskip, hrec, List.range'_succ, List.map_cons, List.filter_cons]
      have : (!(decide ((d2xy M i).1 ≥ nT.x) || decide ((d2xy M i).2 ≥ nT.y))) = true := by
        rw [not_or] at hskip
        simp [hskip.1, hskip.2]
      simp only [this, if_true, List.append_assoc, List.singleton_append]

/-- If the bound `2^(2M)` of the loop fits an `int`, the loop leaves, with enough fuel, and
has built `hilbertTiles`. -/
theorem hilbertMapping_eq_tiles (d2xy : Int → Int → Int × Int) (nT : Point2i)
    (hfit : 2 ^ (hilbertOrder nT + hilbertOrder nT) ≤ 2147483647) (fuel : Nat)
    (hfuel : 2 ^ (hilbertOrder nT + hilbertOrder nT) < fuel) :
    hilbertMapping d2xy nT fuel = some (hilbertTiles d2xy nT) := by
  unfold hilbertMapping hilbertTiles
  have h := hilbertLoop_complete d2xy nT (hilbertOrder nT) hfit
    (2 ^ (hilbertOrder nT + hilbertOrder nT)) 0 fuel [] (by omega) hfuel
  rw [List.range_eq_range']
  simpa using h

/-- If the bound `2^(2M)` of the loop exceeds `INT_MAX`, the comparison `i < pow(2, M + M)`
holds for every `int`, and the loop never leaves. -/
theorem hilbertLoop_never_leaves (d2xy : Int → Int → Int × Int) (nT : Point2i) (M : Nat)
    (hbig : 2147483647 < 2 ^ (M + M)) :
    ∀ (fuel : Nat) (i : Int) (acc : List Point2i), -2147483648 ≤ i → i < 2147483648 →
      hilbertLoop d2xy nT M fuel i acc = none := by
  intro fuel
  induction fuel with
  | zero => intro i acc _ _; rfl
  | succ f ih =>
    intro i acc h1 h2
    have hbig' : (2147483647 : Int) < 2 ^ (M + M) := by exact_mod_cast hbig
    have hlt : i < 2 ^ (M + M) := by omega
    have hr := wrapInt_range (i + 1)
    simp only [hilbertLoop, if_pos hlt]
    split
    · exact ih _ _ hr.1 hr.2
    · exact ih _ _ hr.1 hr.2
/-! ### The modelled `d2xy` is one-to-one onto the square -/

theorem hilbertTiles_nodup (d2xy : Int → Int → Int × Int) (nT : Point2i)
    (hd : IsHilbertMap (hilbertOrder nT) (d2xy (hilbertOrder nT))) :
    (hilbertTiles d2xy nT).Nodup := by
  unfold hilbertTiles
  apply List.Nodup.filter
  apply List.Nodup.map_on _ (List.nodup_range _)
  intro i hi j hj hij
  rw [List.mem_range] at hi hj
  apply hd.2.1 i hi j hj
  have h1 := congrArg Point2i.x hij
  have h2 := congrArg Point2i.y hij
  exact Prod.ext h1 h2

theorem mem_hilbertTiles (d2xy : Int → Int → Int × Int) (nT : Point2i)
    (hd : IsHilbertMap (hilbertOrder nT) (d2xy (hilbertOrder nT))) (t : Point2i) :
    t ∈ hilbertTiles d2xy nT ↔ (0 ≤ t.x ∧ t.x < nT.x) ∧ (0 ≤ t.y ∧ t.y < nT.y) := by
  unfold hilbertTiles
  simp only [List.mem_filter, List.mem_map, List.mem_range, Bool.not_eq_true',
    Bool.or_eq_false_iff, decide_eq_false_iff_not, not_le, ge_iff_le]
  constructor
  · rintro ⟨⟨i, hi, rfl⟩, h1, h2⟩
    have := hd.1 i hi
    exact ⟨⟨this.1, h1⟩, ⟨this.2.2.1, h2⟩⟩
  · rintro ⟨⟨hx0, hx⟩, ⟨hy0, hy⟩⟩
    refine ⟨?_, hx, hy⟩
    have hxp : ((t.x.toNat : Nat) : Int) = t.x := Int.toNat_of_nonneg hx0
    have hyp : ((t.y.toNat : Nat) : Int) = t.y := Int.toNat_of_nonneg hy0
    have hxlt : t.x.toNat < 2 ^ hilbertOrder nT := by
      have := lt_of_lt_of_le hx (nTiles_x_le_pow nT)
      rw [← hxp] at this
      exact_mod_cast this
    have hylt : t.y.toNat < 2 ^ hilbertOrder nT := by
      have := lt_of_lt_of_le hy (nTiles_y_le_pow nT)
      rw [← hyp] at this
      exact_mod_cast this
    obtain ⟨i, hi, hxy⟩ := hd.2.2 t.x.toNat hxlt t.y.toNat hylt
    refine ⟨i, hi, ?_⟩
    rw [hxy]
    cases t
    simp only at hxp hyp
    simp [hxp, hyp]

theorem count_hilbertTiles (d2xy : Int → Int → Int × Int) (nT : Point2i)
    (hd : IsHilbertMap (hilbertOrder nT) (d2xy (hilbertOrder nT))) (t : Point2i) :
    (hilbertTiles d2xy nT).count t =
      if (0 ≤ t.x ∧ t.x < nT.x) ∧ (0 ≤ t.y ∧ t.y < nT.y) then 1 else 0 := by
  by_cases h : (0 ≤ t.x ∧ t.x < nT.x) ∧ (0 ≤ t.y ∧ t.y < nT.y)
  · rw [if_pos h]
    exact List.count_eq_one_of_mem (hilbertTiles_nodup d2xy nT hd)
      ((mem_hilbertTiles d2xy nT hd t).2 h)
  · rw [if_neg h]
    exact List.count_eq_zero_of_not_mem (fun hm => h ((mem_hilbertTiles d2xy nT hd t).1 hm))
/-! ### Ceiling division -/

theorem le_ceilDiv_mul (a b : Nat) (hb : 1 ≤ b) : a ≤ ceilDiv a b * b := by
  unfold ceilDiv
  have h1 := Nat.div_add_mod (a + b - 1) b
  have h2 := Nat.mod_lt (a + b - 1) hb
  rw [Nat.mul_comm]
  generalize b * ((a + b - 1) / b) = m at h1 ⊢
  omega

theorem ceilDiv_le_of_le_mul (a b n : Nat) (hb : 1 ≤ b) (h : a ≤ n * b) : ceilDiv a b ≤ n := by
  unfold ceilDiv
  apply Nat.le_of_lt_succ
  rw [Nat.div_lt_iff_lt_mul hb, Nat.succ_mul]
  omega

/-- The natural-number formula `ceilDiv` is the ceiling of the rational quotient. -/
theorem ceilDiv_eq_ceil (a b : Nat) (hb : 1 ≤ b) : ceilDiv a b = ⌈(a : ℚ) / (b : ℚ)⌉₊ := by
  have hbq : (0 : ℚ) < (b : ℚ) := by exact_mod_cast hb
  apply le_antisymm
  · apply ceilDiv_le_of_le_mul a b _ hb
    have h := Nat.le_ceil ((a : ℚ) / (b : ℚ))
    rw [div_le_iff₀ hbq] at h
    exact_mod_cast h
  · rw [Nat.ceil_le, div_le_iff₀ hbq]
    exact_mod_cast le_ceilDiv_mul a b hb

theorem div_add_one_eq_ceilDiv (a b : Nat) (hb : 1 ≤ b) :
    a / b + 1 = ceilDiv a b + (if b ∣ a then 1 else 0) := by
  unfold ceilDiv
  have h1 := Nat.div_add_mod a b
  have h2 := Nat.mod_lt a hb
  by_cases hd : b ∣ a
  · rw [if_pos hd]
    obtain ⟨k, rfl⟩ := hd
    have e1 : b * k / b = k := Nat.mul_div_cancel_left k hb
    have e2 : (b * k + b - 1) / b = k := by
      apply Nat.div_eq_of_lt_le
      · rw [Nat.mul_comm]; omega
      · rw [Nat.succ_mul, Nat.mul_comm]; omega
    rw [e1, e2]
  · rw [if_neg hd]
    have hm : a % b ≠ 0 := fun h => hd (Nat.dvd_of_mod_eq_zero h)
    have e2 : (a + b - 1) / b = a / b + 1 := by
      have e3 : (a / b + 1) * b = b * (a / b) + b := by ring
      have e4 : Nat.succ (a / b + 1) * b = b * (a / b) + b + b := by
        rw [Nat.succ_mul, e3]
      apply Nat.div_eq_of_lt_le
      · rw [e3]
        generalize b * (a / b) = m at h1 ⊢
        omega
      · rw [e4]
        generalize b * (a / b) = m at h1 ⊢
        omega
    rw [e2]

/-! ### The claims about the tile grid -/

theorem nTiles_of_fit (W H TileSize : Nat) (hx : W / TileSize + 1 ≤ 2147483647)
    (hy : H / TileSize + 1 ≤ 2147483647) :
    nTiles ⟨W, H⟩ TileSize = ⟨((W / TileSize + 1 : Nat) : Int), ((H / TileSize + 1 : Nat) : Int)⟩ := by
  have ex : (W : Int).tdiv (TileSize : Int) = ((W / TileSize : Nat) : Int) :=
    (Int.ofNat_tdiv W TileSize).symm
  have ey : (H : Int).tdiv (TileSize : Int) = ((H / TileSize : Nat) : Int) :=
    (Int.ofNat_tdiv H TileSize).symm
  unfold nTiles
  simp only [ex, ey]
  generalize W / TileSize = a at hx ⊢
  generalize H / TileSize = b at hy ⊢
  rw [wrapInt_of_range _ (by omega) (by omega), wrapInt_of_range _ (by omega) (by omega)]
  push_cast
  rfl

/-- C3, as amended: for every image dimension `(W, H)` and tile edge `TileSize ≥ 1` for which
`floor(W / TileSize) + 1` and `floor(H / TileSize) + 1` do not exceed `INT_MAX`, each
component of the tile grid computed by `SamplerIntegrator::render` is the ceiling of the
image dimension divided by the tile edge, plus one more tile when the tile edge divides the
dimension exactly. -/
theorem nTiles_eq_ceilDiv_add (W H TileSize : Nat) (hT : 1 ≤ TileSize)
    (hx : W / TileSize + 1 ≤ 2147483647) (hy : H / TileSize + 1 ≤ 2147483647) :
    (nTiles ⟨W, H⟩ TileSize).x =
      ((ceilDiv W TileSize + (if TileSize ∣ W then 1 else 0) : Nat) : Int) ∧
    (nTiles ⟨W, H⟩ TileSize).y =
      ((ceilDiv H TileSize + (if TileSize ∣ H then 1 else 0) : Nat) : Int) := by
  rw [nTiles_of_fit W H TileSize hx hy, ← div_add_one_eq_ceilDiv W TileSize hT,
    ← div_add_one_eq_ceilDiv H TileSize hT]
  exact ⟨rfl, rfl⟩

/-- C3, witness: a 20 x 32 image with tile edge 16 has a 2 x 3 grid, while the ceilings
are 2 and 2. -/
theorem nTiles_eq_ceilDiv_add_witness :
    (1 ≤ 16 ∧ 20 / 16 + 1 ≤ 2147483647 ∧ 32 / 16 + 1 ≤ 2147483647) ∧
    (nTiles ⟨(20 : Nat), (32 : Nat)⟩ (16 : Nat)).x =
      ((ceilDiv 20 16 + (if 16 ∣ 20 then 1 else 0) : Nat) : Int) ∧
    (nTiles ⟨(20 : Nat), (32 : Nat)⟩ (16 : Nat)).y =
      ((ceilDiv 32 16 + (if 16 ∣ 32 then 1 else 0) : Nat) : Int) :=
  ⟨by decide, nTiles_eq_ceilDiv_add 20 32 16 (by decide) (by decide) (by decide)⟩

/-- C3, counterexample: for a 16 x 16 image and tile edge 16 the code computes a 2 x 2 grid,
not the 1 x 1 grid of the component-wise ceiling. -/
theorem nTiles_ne_ceilDiv :
    1 ≤ 16 ∧ (nTiles ⟨16, 16⟩ 16).x = 2 ∧ ceilDiv 16 16 = 1 ∧
    ¬ ((nTiles ⟨16, 16⟩ 16).x = ((ceilDiv 16 16 : Nat) : Int) ∧
      (nTiles ⟨16, 16⟩ 16).y = ((ceilDiv 16 16 : Nat) : Int)) := by
  decide

/-- Where the grid does not fit an `int`: for the width `INT_MAX` and tile edge 1 the `int`
addition of line 82 wraps around. -/
theorem nTiles_wraps : nTiles ⟨2147483647, 1⟩ 1 = ⟨-2147483648, 2⟩ := by
  decide

theorem two_pow_le_of_grid (nT : Point2i) (hx : nT.x ≤ 32768) (hy : nT.y ≤ 32768) :
    2 ^ (hilbertOrder nT + hilbertOrder nT) ≤ 1073741824 := by
  have h1 : (max nT.x nT.y).toNat ≤ 2 ^ 15 := by
    have : max nT.x nT.y ≤ 32768 := max_le hx hy
    omega
  have h2 : hilbertOrder nT ≤ 15 := ceilLog2_le_of_le_pow _ 15 h1
  calc 2 ^ (hilbertOrder nT + hilbertOrder nT) ≤ 2 ^ 30 :=
        Nat.pow_le_pow_right (by norm_num) (by omega)
    _ = 1073741824 := by norm_num

/-- Inside the range of `int`: if the tile grid has at most `2^15` tiles in each direction,
so that the bound `2^(2M)` of the loop fits an `int`, and `d2xy` is an order-`M` Hilbert map,
the loop leaves and every tile `t` occurs in `hilbertMapping` exactly once when
`0 ≤ t.x < nTiles.x` and `0 ≤ t.y < nTiles.y`, and does not occur otherwise. -/
theorem hilbertMapping_of_small_grid (nT : Point2i) (hx : nT.x ≤ 32768) (hy : nT.y ≤ 32768)
    (d2xy : Int → Int → Int × Int)
    (hd : IsHilbertMap (hilbertOrder nT) (d2xy (hilbertOrder nT)))
    (fuel : Nat) (hfuel : 1073741824 < fuel) (t : Point2i) :
    ∃ tiles, hilbertMapping d2xy nT fuel = some tiles ∧
      tiles.count t = if (0 ≤ t.x ∧ t.x < nT.x) ∧ (0 ≤ t.y ∧ t.y < nT.y) then 1 else 0 := by
  have h := two_pow_le_of_grid nT hx hy
  exact ⟨hilbertTiles d2xy nT,
    hilbertMapping_eq_tiles d2xy nT (by omega) fuel (by omega), count_hilbertTiles d2xy nT hd t⟩

/-- A grid with more than `2^15` tiles in one direction has order `M ≥ 16`. -/
theorem hilbertOrder_of_wide_grid (nT : Point2i) (h : 32768 < max nT.x nT.y) :
    16 ≤ hilbertOrder nT := by
  unfold hilbertOrder
  exact lt_of_pow_lt_ceilLog2 _ 15 (by omega)

/-- Outside the range of `int`: if the grid has more than `2^15` tiles in one direction, the
bound `2^(2M)` of the loop is at least `2^32` and no `int` reaches it; whatever `d2xy` is and
however many iterations are run, the loop has not left. -/
theorem hilbertMapping_of_wide_grid (d2xy : Int → Int → Int × Int) (nT : Point2i)
    (h : 32768 < max nT.x nT.y) (fuel : Nat) : hilbertMapping d2xy nT fuel = none := by
  have hM := hilbertOrder_of_wide_grid nT h
  have hpow : 2 ^ 32 ≤ 2 ^ (hilbertOrder nT + hilbertOrder nT) :=
    Nat.pow_le_pow_right (by norm_num) (by omega)
  unfold hilbertMapping
  exact hilbertLoop_never_leaves d2xy nT _ (by omega) fuel 0 [] (by norm_num) (by norm_num)

/-- C1, the code at the failing input: for a 524288 x 1 film and tile edge 16 the grid is
32769 x 1, the order is `M = 16` and the bound `2^32` of the loop exceeds `INT_MAX`; whatever
`d2xy` is and however many iterations are run, the loop has not left and `hilbertMapping` is
never completed. -/
theorem hilbertMapping_never_completes (d2xy : Int → Int → Int × Int) (fuel : Nat) :
    nTiles ⟨524288, 1⟩ 16 = ⟨32769, 1⟩ ∧
    hilbertOrder (nTiles ⟨524288, 1⟩ 16) = 16 ∧
    hilbertMapping d2xy (nTiles ⟨524288, 1⟩ 16) fuel = none := by
  have hn : nTiles ⟨524288, 1⟩ 16 = ⟨32769, 1⟩ := by decide
  have hm : (max (32769 : Int) 1).toNat = 32769 := by decide
  have hM : hilbertOrder (nTiles ⟨524288, 1⟩ 16) = 16 := by
    rw [hn]
    unfold hilbertOrder
    simp only [hm]
    apply le_antisymm
    · exact ceilLog2_le_of_le_pow _ 16 (by norm_num)
    · exact lt_of_pow_lt_ceilLog2 _ 15 (by norm_num)
  exact ⟨hn, hM, hilbertMapping_of_wide_grid d2xy _ (by rw [hn]; decide) fuel⟩

/-! ### `importanceSampleOneLight` -/

theorem importanceSampleOneLight_none (w : World) (sampler : Sampler) (event : ScatteringEvent)
    (h : chosenLight w sampler = none) :
    importanceSampleOneLight w sampler event =
      ⟨Spectrum.zero, (w.chooseOneLight (w.get2D (w.get2D sampler).2).2).2,
        [Call.samplerGet2D, Call.samplerGet2D, Call.sceneChooseOneLight]⟩ := by
  unfold chosenLight at h
  simp only [importanceSampleOneLight, h]

/-- C4: if `scene.chooseOneLight` returns no light, `importanceSampleOneLight` returns the
zero spectrum, and the only calls it has made are the two `get2D` draws and
`chooseOneLight` itself: no BSDF method, no light method and no `scene.intersect`. -/
theorem importanceSampleOneLight_no_light (w : World) (sampler : Sampler)
    (event : ScatteringEvent) (h : chosenLight w sampler = none) :
    (importanceSampleOneLight w sampler event).Ld = Spectrum.zero ∧
    (importanceSampleOneLight w sampler event).trace =
      [Call.samplerGet2D, Call.samplerGet2D, Call.sceneChooseOneLight] ∧
    ∀ c ∈ (importanceSampleOneLight w sampler event).trace,
      c ≠ Call.bsdfF ∧ c ≠ Call.bsdfPdf ∧ c ≠ Call.bsdfSample ∧ c ≠ Call.lightSampleLi ∧
      c ≠ Call.lightPdfLi ∧ c ≠ Call.sceneIntersect ∧ c ≠ Call.testerVisible := by
  rw [importanceSampleOneLight_none w sampler event h]
  refine ⟨rfl, rfl, ?_⟩
  intro c hc
  simp only [List.mem_cons, List.mem_singleton, List.not_mem_nil, or_false] at hc
  rcases hc with rfl | rfl | rfl <;> simp

/-- C4, witness: the example world without lights. -/
theorem importanceSampleOneLight_no_light_witness :
    chosenLight (exampleWorld none 0) ⟨0⟩ = none ∧
    (importanceSampleOneLight (exampleWorld none 0) ⟨0⟩ exampleEvent).Ld = Spectrum.zero :=
  ⟨rfl, (importanceSampleOneLight_no_light (exampleWorld none 0) ⟨0⟩ exampleEvent rfl).1⟩

theorem importanceSampleOneLight_some (w : World) (sampler : Sampler) (event : ScatteringEvent)
    (light : Light) (pdfLightChoice : Flt)
    (hl : chosenLight w sampler = some (light, pdfLightChoice)) :
    importanceSampleOneLight w sampler event =
      ⟨(sampleBRDF w event (lightBlock w sampler event light pdfLightChoice).scatteringEvent
          (drawnBsdfSample w sampler) (lightBlock w sampler event light pdfLightChoice).Ld).Ld,
        (w.chooseOneLight (w.get2D (w.get2D sampler).2).2).2,
        [Call.samplerGet2D, Call.samplerGet2D, Call.sceneChooseOneLight] ++
          (lightBlock w sampler event light pdfLightChoice).trace ++
          (sampleBRDF w event (lightBlock w sampler event light pdfLightChoice).scatteringEvent
            (drawnBsdfSample w sampler)
            (lightBlock w sampler event light pdfLightChoice).Ld).trace⟩ := by
  unfold chosenLight at hl
  simp only [importanceSampleOneLight, hl, lightBlock, drawnLightSample, drawnBsdfSample]

theorem sampleBRDF_of_guard_false (w : World) (event se : ScatteringEvent) (u : Point2f)
    (Ld : Spectrum) (h : brdfGuard w (sampledBRDF w se u).1 (sampledBRDF w se u).2 = false) :
    (sampleBRDF w event se u Ld).Ld = Ld ∧ (sampleBRDF w event se u Ld).trace = [Call.bsdfSample] := by
  simp [sampleBRDF, h]

theorem sampleLightSource_trace_subset (w : World) (light : Light) (p : Flt) (u : Point2f)
    (event se : ScatteringEvent) (Ld : Spectrum) :
    ∀ c ∈ (sampleLightSource w light p u event se Ld).trace,
      c ≠ Call.spawnRay ∧ c ≠ Call.sceneIntersect := by
  intro c hc
  unfold sampleLightSource at hc
  simp only at hc
  split at hc
  · split at hc
    · simp only [List.mem_cons, List.mem_singleton, List.not_mem_nil, or_false] at hc
      rcases hc with rfl | rfl | rfl <;> simp
    · split at hc
      · simp only [List.mem_cons, List.mem_singleton, List.not_mem_nil, or_false] at hc
        rcases hc with rfl | rfl | rfl | rfl | rfl | rfl <;> simp
      · simp only [List.mem_cons, List.mem_singleton, List.not_mem_nil, or_false] at hc
        rcases hc with rfl | rfl | rfl | rfl <;> simp
  · simp only [List.mem_cons, List.mem_singleton, List.not_mem_nil, or_false] at hc
    rcases hc with rfl
    simp

/-- C9: when a light has been chosen and the lobe reported by `bsdf->sample` matches
`BSDFLobe::specular` (or the sampled `f` is black, or the sampled pdf is not `> 0`), the
BSDF block makes no call after `bsdf->sample` (no ray is spawned, `scene.intersect` is not
called) and leaves `Ld` unchanged, so the value returned is the contribution of the light
block alone. -/
theorem sampleBRDF_skipped_when_specular (w : World) (sampler : Sampler)
    (event : ScatteringEvent) (light : Light) (pdfLightChoice : Flt)
    (hl : chosenLight w sampler = some (light, pdfLightChoice))
    (h : w.matchFlag (brdfDraw w sampler event light pdfLightChoice).2.bsdfLobe w.specular = true ∨
      (brdfDraw w sampler event light pdfLightChoice).1.isBlack = true ∨
      Flt.lt (Flt.fin 0) (brdfDraw w sampler event light pdfLightChoice).2.pdf = false) :
    (sampleBRDF w event (lightBlock w sampler event light pdfLightChoice).scatteringEvent
      (drawnBsdfSample w sampler) (lightBlock w sampler event light pdfLightChoice).Ld).trace =
        [Call.bsdfSample] ∧
    (importanceSampleOneLight w sampler event).Ld =
      (lightBlock w sampler event light pdfLightChoice).Ld ∧
    (importanceSampleOneLight w sampler event).trace =
      [Call.samplerGet2D, Call.samplerGet2D, Call.sceneChooseOneLight] ++
        (lightBlock w sampler event light pdfLightChoice).trace ++ [Call.bsdfSample] ∧
    Call.spawnRay ∉ (importanceSampleOneLight w sampler event).trace ∧
    Call.sceneIntersect ∉ (importanceSampleOneLight w sampler event).trace := by
  have hg : brdfGuard w (brdfDraw w sampler event light pdfLightChoice).1
      (brdfDraw w sampler event light pdfLightChoice).2 = false := by
    unfold brdfGuard
    rcases h with h | h | h <;> simp [h]
  have hb := sampleBRDF_of_guard_false w event
    (lightBlock w sampler event light pdfLightChoice).scatteringEvent (drawnBsdfSample w sampler)
    (lightBlock w sampler event light pdfLightChoice).Ld hg
  have hsub := sampleLightSource_trace_subset w light pdfLightChoice (drawnLightSample w sampler)
    event event Spectrum.zero
  rw [importanceSampleOneLight_some w sampler event light pdfLightChoice hl]
  simp only [hb.1, hb.2]
  refine ⟨trivial, trivial, trivial, ?_, ?_⟩
  · intro hm
    simp only [List.mem_append, List.mem_cons, List.mem_singleton, List.not_mem_nil,
      or_false, reduceCtorEq, false_or] at hm
    exact (hsub _ hm).1 rfl
  · intro hm
    simp only [List.mem_append, List.mem_cons, List.mem_singleton, List.not_mem_nil,
      or_false, reduceCtorEq, false_or] at hm
    exact (hsub _ hm).2 rfl

/-- C9, witness: in the example world with one light and a specular sampled lobe the
returned value is the light block's contribution. -/
theorem sampleBRDF_skipped_when_specular_witness :
    chosenLight (exampleWorld (some (⟨0⟩, Flt.fin 1)) 4) ⟨0⟩ = some (⟨0⟩, Flt.fin 1) ∧
    (exampleWorld (some (⟨0⟩, Flt.fin 1)) 4).matchFlag
      (brdfDraw (exampleWorld (some (⟨0⟩, Flt.fin 1)) 4) ⟨0⟩ exampleEvent ⟨0⟩ (Flt.fin 1)).2.bsdfLobe
      (exampleWorld (some (⟨0⟩, Flt.fin 1)) 4).specular = true ∧
    (importanceSampleOneLight (exampleWorld (some (⟨0⟩, Flt.fin 1)) 4) ⟨0⟩ exampleEvent).Ld =
      (lightBlock (exampleWorld (some (⟨0⟩, Flt.fin 1)) 4) ⟨0⟩ exampleEvent ⟨0⟩ (Flt.fin 1)).Ld :=
  ⟨rfl, rfl,
    (sampleBRDF_skipped_when_specular (exampleWorld (some (⟨0⟩, Flt.fin 1)) 4) ⟨0⟩ exampleEvent
      ⟨0⟩ (Flt.fin 1) rfl (Or.inl rfl)).2.1⟩

theorem Flt.ofExact_cases (q : ℚ) :
    (Flt.ofExact q = Flt.fin 0 ∧ |q| ≤ 1 / 2 ^ 150) ∨
    (Flt.ofExact q = Flt.pinf ∧ 0 ≤ q ∧ 1 / 2 ^ 150 < |q|) ∨
    (Flt.ofExact q = Flt.ninf ∧ q < 0) ∨
    (Flt.ofExact q = Flt.fin q ∧ 1 / 2 ^ 150 < |q|) := by
  unfold Flt.ofExact
  by_cases h1 : |q| ≤ 1 / 2 ^ 150
  · left; rw [if_pos h1]; exact ⟨rfl, h1⟩
  · rw [if_neg h1]
    by_cases h2 : (2 - 1 / 2 ^ 24) * 2 ^ 127 ≤ |q|
    · rw [if_pos h2]
      by_cases h3 : q < 0
      · right; right; left; rw [if_pos h3]; exact ⟨rfl, h3⟩
      · right; left; rw [if_neg h3]; exact ⟨rfl, not_lt.1 h3, not_le.1 h1⟩
    · right; right; right; rw [if_neg h2]; exact ⟨rfl, not_le.1 h1⟩

/-- A square is `NaN`, zero, `+Inf` or a rational above the underflow bound. -/
theorem Flt.mul_self_cases (b : Flt) :
    b.mul b = Flt.nan ∨ b.mul b = Flt.fin 0 ∨ b.mul b = Flt.pinf ∨
      ∃ y : ℚ, b.mul b = Flt.fin y ∧ 1 / 2 ^ 150 < y := by
  cases b with
  | fin r =>
    have hsq : 0 ≤ r * r := mul_self_nonneg r
    rcases Flt.ofExact_cases (r * r) with h | h | h | h
    · right; left; simpa [Flt.mul] using h.1
    · right; right; left; simpa [Flt.mul] using h.1
    · exact absurd h.2 (not_lt.2 hsq)
    · right; right; right
      refine ⟨r * r, by simpa [Flt.mul] using h.1, ?_⟩
      rw [abs_of_nonneg hsq] at h
      exact h.2
  | pinf => right; right; left; simp [Flt.mul, Flt.isNeg]
  | ninf => right; right; left; simp [Flt.mul, Flt.isNeg]
  | nan => left; simp [Flt.mul]

/-- If `a*a` is not zero, the sum `a*a + b*b` is not zero for any `b`. -/
theorem Flt.sq_add_sq_ne_zero (a b : Flt) (ha : a.mul a ≠ Flt.fin 0) :
    (a.mul a).add (b.mul b) ≠ Flt.fin 0 := by
  have hx : 0 < (1 : ℚ) / 2 ^ 150 := by positivity
  rcases Flt.mul_self_cases a with h | h | h | ⟨x, h, hxb⟩
  · rw [h]; simp [Flt.add]
  · exact absurd h ha
  · rw [h]
    rcases Flt.mul_self_cases b with k | k | k | ⟨y, k, _⟩ <;> rw [k] <;> simp [Flt.add]
  · rw [h]
    rcases Flt.mul_self_cases b with k | k | k | ⟨y, k, hyb⟩
    · rw [k]; simp [Flt.add]
    · rw [k]
      have hpos : 0 ≤ x := by linarith
      simp only [Flt.add, add_zero]
      rcases Flt.ofExact_cases x with e | e | e | e
      · rw [abs_of_nonneg hpos] at e
        exact absurd e.2 (by linarith)
      · simp [e.1]
      · simp [e.1]
      · simp only [e.1, ne_eq, Flt.fin.injEq]
        linarith
    · rw [k]; simp [Flt.add]
    · rw [k]
      have hpos : 0 ≤ x + y := by linarith
      rcases Flt.ofExact_cases (x + y) with e | e | e | e
      · rw [abs_of_nonneg hpos] at e
        exact absurd e.2 (by linarith)
      · simp [Flt.add, e.1]
      · simp [Flt.add, e.1]
      · simp only [Flt.add, e.1, ne_eq, Flt.fin.injEq]
        linarith

theorem sampleLightSource_safe (w : World) (light : Light) (p : Flt) (u : Point2f)
    (event se : ScatteringEvent) (Ld : Spectrum) :
    ∀ c ∈ (sampleLightSource w light p u event se Ld).trace, SafeCall c := by
  intro c hc
  unfold sampleLightSource at hc
  simp only at hc
  split at hc
  · rename_i hg
    rw [Bool.and_eq_true] at hg
    split at hc
    · simp only [List.mem_cons, List.mem_singleton, List.not_mem_nil, or_false] at hc
      rcases hc with rfl | rfl | rfl <;> exact trivial
    · split at hc
      · simp only [List.mem_cons, List.mem_singleton, List.not_mem_nil, or_false] at hc
        rcases hc with rfl | rfl | rfl | rfl | rfl | rfl
        · exact trivial
        · exact trivial
        · exact trivial
        · exact trivial
        · exact ⟨hg.1, fun h b => Flt.sq_add_sq_ne_zero _ b h⟩
        · exact hg.1
      · simp only [List.mem_cons, List.mem_singleton, List.not_mem_nil, or_false] at hc
        rcases hc with rfl | rfl | rfl | rfl <;> exact trivial
  · simp only [List.mem_cons, List.mem_singleton, List.not_mem_nil, or_false] at hc
    rcases hc with rfl
    exact trivial

theorem sampleBRDF_safe (w : World) (event se : ScatteringEvent) (u : Point2f) (Ld : Spectrum) :
    ∀ c ∈ (sampleBRDF w event se u Ld).trace, SafeCall c := by
  intro c hc
  unfold sampleBRDF at hc
  simp only at hc
  split at hc
  · rename_i hg
    unfold brdfGuard at hg
    rw [Bool.and_eq_true, Bool.and_eq_true] at hg
    split at hc
    · simp only [List.mem_cons, List.mem_singleton, List.not_mem_nil, or_false] at hc
      rcases hc with rfl | rfl | rfl <;> exact trivial
    · split at hc
      · simp only [List.mem_cons, List.mem_singleton, List.not_mem_nil, or_false] at hc
        rcases hc with rfl | rfl | rfl <;> exact trivial
      · split at hc
        · simp only [List.mem_cons, List.mem_singleton, List.not_mem_nil, or_false] at hc
          rcases hc with rfl | rfl | rfl | rfl | rfl | rfl | rfl | rfl
          · exact trivial
          · exact trivial
          · exact trivial
          · exact trivial
          · exact trivial
          · exact trivial
          · exact ⟨hg.1.2, fun h b => Flt.sq_add_sq_ne_zero _ b h⟩
          · exact hg.1.2
        · simp only [List.mem_cons, List.mem_singleton, List.not_mem_nil, or_false] at hc
          rcases hc with rfl | rfl | rfl | rfl | rfl | rfl <;> exact trivial
  · simp only [List.mem_cons, List.mem_singleton, List.not_mem_nil, or_false] at hc
    rcases hc with rfl
    exact trivial

/-- C10, as amended: every division performed by `importanceSampleOneLight` by `lightPdf` or
by `scatteringPdf` has a divisor `> 0` (each under its own guard), and every call of
`PowerHeuristics` has a first argument `a > 0`; whenever the product `a*a` is not zero, the
denominator `a*a + b*b` of the heuristic is not zero for any value `b` of the other
density. -/
theorem importanceSampleOneLight_divisions_safe (w : World) (sampler : Sampler)
    (event : ScatteringEvent) (c : Call)
    (hc : c ∈ (importanceSampleOneLight w sampler event).trace) : SafeCall c := by
  cases hl : chosenLight w sampler with
  | none =>
    rw [importanceSampleOneLight_none w sampler event hl] at hc
    simp only [List.mem_cons, List.mem_singleton, List.not_mem_nil, or_false] at hc
    rcases hc with rfl | rfl | rfl <;> exact trivial
  | some lp =>
    obtain ⟨light, p⟩ := lp
    rw [importanceSampleOneLight_some w sampler event light p hl] at hc
    simp only [List.mem_append, List.mem_cons, List.mem_singleton, List.not_mem_nil,
      or_false] at hc
    rcases hc with ((rfl | rfl | rfl) | hc) | hc
    · exact trivial
    · exact trivial
    · exact trivial
    · exact sampleLightSource_safe _ _ _ _ _ _ _ c hc
    · exact sampleBRDF_safe _ _ _ _ _ c hc
theorem Flt.ofExact_of_small (q : ℚ) (h : |q| ≤ 1 / 2 ^ 150) : Flt.ofExact q = Flt.fin 0 := by
  unfold Flt.ofExact
  rw [if_pos h]

theorem Flt.ofExact_of_mid (q : ℚ) (h1 : 1 / 2 ^ 150 < |q|)
    (h2 : |q| < (2 - 1 / 2 ^ 24) * 2 ^ 127) : Flt.ofExact q = Flt.fin q := by
  unfold Flt.ofExact
  rw [if_neg (not_le.2 h1), if_neg (not_le.2 h2)]

theorem Flt.ofExact_zero : Flt.ofExact 0 = Flt.fin 0 :=
  Flt.ofExact_of_small 0 (by rw [abs_zero]; positivity)

theorem Flt.ofExact_one : Flt.ofExact 1 = Flt.fin 1 :=
  Flt.ofExact_of_mid 1 (by rw [abs_one]; norm_num) (by rw [abs_one]; norm_num)

theorem Flt.ofExact_tiny : Flt.ofExact (2 ^ 100)⁻¹ = Flt.fin (2 ^ 100)⁻¹ :=
  Flt.ofExact_of_mid _ (by rw [abs_of_pos (by positivity)]; norm_num)
    (by rw [abs_of_pos (by positivity)]; norm_num)

theorem Flt.ofExact_tiny_sq : Flt.ofExact ((2 ^ 100)⁻¹ * (2 ^ 100)⁻¹) = Flt.fin 0 :=
  Flt.ofExact_of_small _ (by rw [abs_of_pos (by positivity)]; norm_num)

/-- C10, witness: in the example world with a non-specular lobe the light term is divided
by `lightPdf = 1`. -/
theorem importanceSampleOneLight_divisions_safe_witness :
    Call.divide (Flt.fin 1) ∈
      (importanceSampleOneLight (exampleWorld (some (⟨0⟩, Flt.fin 1)) 0) ⟨0⟩ exampleEvent).trace ∧
    SafeCall (Call.divide (Flt.fin 1)) :=
  ⟨by simp [importanceSampleOneLight, exampleWorld, exampleEvent, sampleLightSource, sampleBRDF,
      sampledBRDF, brdfGuard, Flt.lt, Flt.mul, Spectrum.isBlack, Spectrum.scale, Spectrum.one,
      Vec3f.absDot, Vec3f.dot, Flt.add, Flt.abs, ScatteringEvent.Ns, ScatteringEvent.spawnRay,
      Flt.ofExact_zero, Flt.ofExact_one],
    importanceSampleOneLight_divisions_safe (exampleWorld (some (⟨0⟩, Flt.fin 1)) 0) ⟨0⟩
      exampleEvent (Call.divide (Flt.fin 1))
      (by simp [importanceSampleOneLight, exampleWorld, exampleEvent, sampleLightSource,
        sampleBRDF, sampledBRDF, brdfGuard, Flt.lt, Flt.mul, Spectrum.isBlack, Spectrum.scale,
        Spectrum.one, Vec3f.absDot, Vec3f.dot, Flt.add, Flt.abs, ScatteringEvent.Ns,
        ScatteringEvent.spawnRay, Flt.ofExact_zero, Flt.ofExact_one])⟩

/-- C10, counterexample: in `underflowWorld` the light block calls
`PowerHeuristics(2^-100, 0)`. Its first argument is `> 0`, but the product `2^-100 * 2^-100`
underflows to `0`, and the denominator `a*a + b*b` is `0`. -/
theorem powerHeuristics_denominator_zero :
    Call.powerHeuristics (Flt.fin (1 / 2 ^ 100)) (Flt.fin 0) ∈
      (importanceSampleOneLight underflowWorld ⟨0⟩ exampleEvent).trace ∧
    Flt.lt (Flt.fin 0) (Flt.fin (1 / 2 ^ 100)) = true ∧
    ((Flt.fin (1 / 2 ^ 100)).mul (Flt.fin (1 / 2 ^ 100))).add ((Flt.fin 0).mul (Flt.fin 0)) =
      Flt.fin 0 := by
  refine ⟨?_, ?_, ?_⟩
  · simp [importanceSampleOneLight, underflowWorld, exampleWorld, exampleEvent, sampleLightSource,
      sampleBRDF, sampledBRDF, brdfGuard, Flt.lt, Flt.mul, Spectrum.isBlack, Spectrum.scale,
      Spectrum.one, Vec3f.absDot, Vec3f.dot, Flt.add, Flt.abs, ScatteringEvent.Ns,
      ScatteringEvent.spawnRay, Flt.ofExact_zero, Flt.ofExact_one, Flt.ofExact_tiny]
  · simp [Flt.lt]
  · simp [Flt.mul, Flt.add, Flt.ofExact_tiny_sq, Flt.ofExact_zero]

/-! ### Sanitising and clamping -/

theorem clampChannel_sanitizeChannel_inRange (c m : Flt) (hm : Flt.le (Flt.fin 0) m = true) :
    InRange (clampChannel (sanitizeChannel c) m) m := by
  have key : ∀ q : ℚ, InRange (clampChannel (Flt.fin q) m) m := by
    intro q
    cases m with
    | fin r =>
      have hr : 0 ≤ r := by simpa [Flt.le] using hm
      by_cases hrq : r < q
      · simp [InRange, clampChannel, Flt.lt, Flt.le, Flt.isFinite, hrq, hr, not_lt.2 hr]
      · by_cases hq : q < 0
        · simp [InRange, clampChannel, Flt.lt, Flt.le, Flt.isFinite, hq, hrq, hr]
        · simp [InRange, clampChannel, Flt.lt, Flt.le, Flt.isFinite, hq, hrq, not_lt.1 hq,
            not_lt.1 hrq]
    | pinf =>
      by_cases hq : q < 0
      · simp [InRange, clampChannel, Flt.lt, Flt.le, Flt.isFinite, hq]
      · simp [InRange, clampChannel, Flt.lt, Flt.le, Flt.isFinite, hq, not_lt.1 hq]
    | ninf => simp [Flt.le] at hm
    | nan => simp [Flt.le] at hm
  cases c with
  | fin q => exact key q
  | pinf => exact key 0
  | ninf => exact key 0
  | nan => exact key 0

/-- C5: for every spectrum `s` returned by `L` (its channels may be NaN, +Inf, -Inf or
negative) and every `maxRayIntensity ≥ 0`, every channel of the value
`clampRadiance(removeNaNs(s), maxRayIntensity)` that `render` adds to the film is finite and
within `[0, maxRayIntensity]`. -/
theorem clampRadiance_removeNaNs_in_range (s : Spectrum) (maxRayIntensity : Flt)
    (hm : Flt.le (Flt.fin 0) maxRayIntensity = true) (c : Flt)
    (hc : c ∈ (clampRadiance (removeNaNs s) maxRayIntensity).channels) :
    InRange c maxRayIntensity := by
  simp only [Spectrum.channels, clampRadiance, removeNaNs, List.mem_cons, List.mem_singleton,
    List.not_mem_nil, or_false] at hc
  rcases hc with rfl | rfl | rfl
  · exact clampChannel_sanitizeChannel_inRange _ _ hm
  · exact clampChannel_sanitizeChannel_inRange _ _ hm
  · exact clampChannel_sanitizeChannel_inRange _ _ hm

/-- C5, witness: the spectrum `(NaN, -3, 5)` clamped at `2` is `(0, 0, 2)`; its third
channel. -/
theorem clampRadiance_removeNaNs_in_range_witness :
    Flt.le (Flt.fin 0) (Flt.fin 2) = true ∧
    clampRadiance (removeNaNs ⟨Flt.nan, Flt.fin (-3), Flt.fin 5⟩) (Flt.fin 2) =
      ⟨Flt.fin 0, Flt.fin 0, Flt.fin 2⟩ ∧
    InRange (Flt.fin 2) (Flt.fin 2) :=
  have hm : Flt.le (Flt.fin 0) (Flt.fin 2) = true := by simp [Flt.le]
  have he : clampRadiance (removeNaNs ⟨Flt.nan, Flt.fin (-3), Flt.fin 5⟩) (Flt.fin 2) =
      ⟨Flt.fin 0, Flt.fin 0, Flt.fin 2⟩ := by
    simp [clampRadiance, removeNaNs, clampChannel, sanitizeChannel, Flt.lt]
    norm_num
  ⟨hm, he,
    clampRadiance_removeNaNs_in_range ⟨Flt.nan, Flt.fin (-3), Flt.fin 5⟩ (Flt.fin 2) hm
      (Flt.fin 2) (by rw [he]; simp [Spectrum.channels])⟩

/-! ### The image loader -/

/-- A call of `load` leaves the member `images` as it was. -/
theorem load_loader_unchanged (disk : String → Option RawImage) (loader : ImageLoader)
    (heap : Heap) (filename : String) (format : ImageFormat) (r : Loaded)
    (h : ImageLoader.load disk loader heap filename format = Except.ok r) :
    r.loader = loader := by
  unfold ImageLoader.load at h
  split at h
  · injection h with h; rw [← h]
  · split at h
    · exact absurd h (by simp)
    · injection h with h; rw [← h]

/-- When the name is not yet in `images`, a successful `load` followed by a second `load` of
the same name constructs two images and returns two different pointers. -/
theorem load_twice_constructs_twice (disk : String → Option RawImage) (loader : ImageLoader)
    (heap : Heap) (filename : String) (format : ImageFormat) (r : Loaded)
    (hfind : loader.find filename = Option.none)
    (h : ImageLoader.load disk loader heap filename format = Except.ok r) :
    ∃ r2, ImageLoader.load disk r.loader r.heap filename format = Except.ok r2 ∧
      r2.ptr ≠ r.ptr ∧ r.heap.length = heap.length + 1 ∧ r2.heap.length = heap.length + 2 := by
  unfold ImageLoader.load at h
  rw [hfind] at h
  simp only at h
  cases hc : Image.construct disk filename format with
  | error e => rw [hc] at h; exact absurd h (by simp)
  | ok img =>
    rw [hc] at h
    injection h with h
    subst h
    refine ⟨⟨(heap ++ [img]).length, loader, (heap ++ [img]) ++ [img]⟩, ?_, ?_, ?_, ?_⟩
    · simp only [ImageLoader.load, hfind, hc]
    · simp
    · simp
    · simp

/-- C7, the code at the failing input: on a loader whose cache is empty, with `a.png`
readable, the first `load("a.png", none)` returns pointer `0` to a newly constructed image;
the second call constructs a second image and returns pointer `1`, a different object; the
cache `images` is empty after both calls. -/
theorem load_not_memoized :
    ImageLoader.load exampleDisk ⟨[]⟩ [] "a.png" ImageFormat.none =
      Except.ok ⟨0, ⟨[]⟩, [⟨"a.png", ImageFormat.none, ⟨1, 1, [0, 0, 0]⟩⟩]⟩ ∧
    ImageLoader.load exampleDisk ⟨[]⟩ [⟨"a.png", ImageFormat.none, ⟨1, 1, [0, 0, 0]⟩⟩] "a.png"
        ImageFormat.none =
      Except.ok ⟨1, ⟨[]⟩, [⟨"a.png", ImageFormat.none, ⟨1, 1, [0, 0, 0]⟩⟩,
        ⟨"a.png", ImageFormat.none, ⟨1, 1, [0, 0, 0]⟩⟩]⟩ := by
  constructor <;> rfl

/-! ### The tile loop -/

theorem sampleLoop_eq (I : SamplerIntegrator) (sc : Scene) (x y : Int) :
    ∀ n s film, sampleLoop I sc x y n s film =
      film ++ (List.range' s n).map (depositOf I sc x y) := by
  intro n
  induction n with
  | zero => intro s film; simp [sampleLoop]
  | succ k ih =>
    intro s film
    simp only [sampleLoop, ih, addOneSample, Film.addSample, List.range'_succ, List.map_cons,
      depositOf, List.append_assoc, List.singleton_append]

theorem leadingTrue_le (poll : Nat → Bool) : ∀ n k, leadingTrue poll n k ≤ n := by
  intro n
  induction n with
  | zero => intro k; simp [leadingTrue]
  | succ m ih =>
    intro k
    simp only [leadingTrue]
    split
    · omega
    · have := ih (k + 1); omega

theorem leadingTrue_add (poll : Nat → Bool) : ∀ a b k,
    leadingTrue poll (a + b) k =
      if leadingTrue poll a k = a then a + leadingTrue poll b (k + a)
      else leadingTrue poll a k := by
  intro a
  induction a with
  | zero => intro b k; simp [leadingTrue]
  | succ m ih =>
    intro b k
    have e : m + 1 + b = (m + b) + 1 := by omega
    rw [e]
    simp only [leadingTrue]
    by_cases hp : poll k = false
    · rw [if_pos hp, if_pos hp, if_neg (by omega)]
    · rw [if_neg hp, if_neg hp, ih b (k + 1)]
      have e2 : k + 1 + m = k + (m + 1) := by omega
      by_cases hm : leadingTrue poll m (k + 1) = m
      · rw [if_pos hm, if_pos (by omega), e2]
        omega
      · rw [if_neg hm, if_neg (by omega)]

theorem leadingTrue_spec (poll : Nat → Bool) : ∀ n k,
    (∀ j, j < leadingTrue poll n k → poll (k + j) = true) ∧
    (leadingTrue poll n k < n → poll (k + leadingTrue poll n k) = false) := by
  intro n
  induction n with
  | zero => intro k; simp [leadingTrue]
  | succ m ih =>
    intro k
    simp only [leadingTrue]
    by_cases hp : poll k = false
    · rw [if_pos hp]
      exact ⟨fun j hj => absurd hj (Nat.not_lt_zero j), fun _ => hp⟩
    · rw [if_neg hp]
      have hp1 : poll k = true := by simpa using hp
      obtain ⟨h1, h2⟩ := ih (k + 1)
      constructor
      · intro j hj
        cases j with
        | zero => exact hp1
        | succ i =>
          have := h1 i (by omega)
          have e : k + 1 + i = k + (i + 1) := by omega
          rw [← e]; exact this
      · intro hlt
        have := h2 (by omega)
        have e : k + 1 + leadingTrue poll m (k + 1) = k + (leadingTrue poll m (k + 1) + 1) := by
          omega
        rw [← e]; exact this

theorem leadingTrue_of_all_false (poll : Nat → Bool) (h : ∀ k, poll k = false) :
    ∀ n k, leadingTrue poll n k = 0 := by
  intro n
  cases n with
  | zero => intro k; rfl
  | succ m => intro k; simp [leadingTrue, h]

theorem pixelSamples_eq (I : SamplerIntegrator) (sc : Scene) (t : Point2i) (i j : Nat) :
    pixelSamples I sc t (i, j) =
      if pixelCoord I.TileSize t.x i ≥ sc.filmWidth ∨
          pixelCoord I.TileSize t.y j ≥ sc.filmHeight then []
      else (List.range' 0 I.spp.toNat).map
        (depositOf I sc (pixelCoord I.TileSize t.x i) (pixelCoord I.TileSize t.y j)) := by
  simp only [pixelSamples, sampleLoop_eq, List.nil_append]

theorem pixelBody_pollsBeforeEach (I : SamplerIntegrator) (sc : Scene) (poll : Nat → Bool)
    (t : Point2i) (i j : Nat) :
    PollsBeforeEach poll (pixelSamples I sc t) 1 [(i, j)]
      (pixelBody I sc poll t.x t.y i j) := by
  refine ⟨rfl, fun st => ?_⟩
  simp only [pixelBody, leadingTrue, List.flatMap_cons, List.flatMap_nil, List.append_nil,
    pixelSamples_eq]
  by_cases hp : poll st.polls = false
  · rw [if_pos hp, if_pos hp, if_neg (by omega)]
    simp
  · rw [if_neg hp, if_neg hp, if_pos rfl]
    by_cases hout : pixelCoord I.TileSize t.x i ≥ sc.filmWidth ∨
        pixelCoord I.TileSize t.y j ≥ sc.filmHeight
    · rw [if_pos hout, if_pos hout, List.append_nil]
    · rw [if_neg hout, if_neg hout, sampleLoop_eq]

theorem forRange_pollsBeforeEach (poll : Nat → Bool) (ps : Nat × Nat → Film) (c : Nat)
    (items : Nat → List (Nat × Nat)) (body : Nat → WorkerState → Flow)
    (hbody : ∀ i, PollsBeforeEach poll ps c (items i) (body i)) :
    ∀ n i0, PollsBeforeEach poll ps (n * c) ((List.range' i0 n).flatMap items)
      (forRange body n i0) := by
  intro n
  induction n with
  | zero =>
    intro i0
    refine ⟨by simp, fun st => ?_⟩
    simp [forRange, leadingTrue]
  | succ m ih =>
    intro i0
    obtain ⟨hlen, hrest⟩ := ih (i0 + 1)
    obtain ⟨hlen0, hb⟩ := hbody i0
    have hc : (m + 1) * c = c + m * c := by ring
    refine ⟨?_, fun st => ?_⟩
    · rw [List.range'_succ, List.flatMap_cons, List.length_append, hlen, hlen0, hc]
    · rw [hc, leadingTrue_add, List.range'_succ, List.flatMap_cons]
      simp only [forRange, hb st]
      by_cases h0 : leadingTrue poll c st.polls = c
      · simp only [h0, if_true, hrest]
        by_cases h1 : leadingTrue poll (m * c) (st.polls + c) = m * c
        · simp only [h1, if_true, List.flatMap_append, List.append_assoc]
          congr 2
          omega
        · have hne : ¬ (c + leadingTrue poll (m * c) (st.polls + c) = c + m * c) := by omega
          simp only [h1, hne, if_false]
          have ht : List.take (c + leadingTrue poll (m * c) (st.polls + c))
              (items i0 ++ (List.range' (i0 + 1) m).flatMap items) =
              items i0 ++ List.take (leadingTrue poll (m * c) (st.polls + c))
                ((List.range' (i0 + 1) m).flatMap items) := by
            rw [List.take_append_eq_append_take, hlen0]
            rw [List.take_of_length_le (by omega)]
            congr 2
            omega
          rw [ht, List.flatMap_append, List.append_assoc]
          congr 2
          omega
      · have hle := leadingTrue_le poll c st.polls
        have hne : ¬ (leadingTrue poll c st.polls = c + m * c) := by
          intro h; omega
        simp only [h0, hne, if_false]
        rw [List.take_append_of_le_length (by omega)]

theorem tilePixels_eq (T : Nat) :
    tilePixels T =
      (List.range' 0 T).flatMap (fun i => (List.range' 0 T).flatMap (fun j => [(i, j)])) := by
  unfold tilePixels
  rw [List.range_eq_range']
  congr 1
  funext i
  induction (List.range' 0 T) with
  | nil => rfl
  | cons a l ih => simp [List.flatMap_cons, ih]

theorem tileBody_eq (I : SamplerIntegrator) (sc : Scene) (poll : Nat → Bool) (t : Point2i)
    (film : Film) :
    (tileBody I sc poll t film).film = film ++ tileSamples I sc poll t ∧
    (tileBody I sc poll t film).polls =
      min (leadingTrue poll (I.TileSize.toNat * I.TileSize.toNat) 0 + 1)
        (I.TileSize.toNat * I.TileSize.toNat) := by
  generalize hT : I.TileSize.toNat = T
  have hrow : ∀ i, PollsBeforeEach poll (pixelSamples I sc t) (T * 1)
      ((List.range' 0 T).flatMap (fun j => [(i, j)]))
      (forRange (fun j st1 => pixelBody I sc poll t.x t.y i j st1) T 0) :=
    fun i => forRange_pollsBeforeEach poll (pixelSamples I sc t) 1 (fun j => [(i, j)])
      (fun j st1 => pixelBody I sc poll t.x t.y i j st1)
      (fun j => pixelBody_pollsBeforeEach I sc poll t i j) T 0
  have hall := (forRange_pollsBeforeEach poll (pixelSamples I sc t) (T * 1)
      (fun i => (List.range' 0 T).flatMap (fun j => [(i, j)]))
      (fun i st => forRange (fun j st1 => pixelBody I sc poll t.x t.y i j st1) T 0 st)
      hrow T 0)
  obtain ⟨hlen, hf⟩ := hall
  rw [← tilePixels_eq] at hlen hf
  simp only [Nat.mul_one] at hlen hf
  have hle := leadingTrue_le poll (T * T) 0
  unfold tileBody tileSamples
  rw [hT, hf ⟨film, 0⟩]
  by_cases h : leadingTrue poll (T * T) 0 = T * T
  · simp only [h, if_true, Flow.state, Nat.zero_add]
    refine ⟨?_, by omega⟩
    rw [List.take_of_length_le (by omega)]
  · simp only [h, if_false, Flow.state, Nat.zero_add]
    refine ⟨trivial, by omega⟩

theorem parallelFor_eq (I : SamplerIntegrator) (sc : Scene) (poll : Nat → Nat → Bool) :
    ∀ tiles idx film, parallelFor I sc poll idx tiles film =
      film ++ (tiles.enumFrom idx).flatMap (fun p => tileSamples I sc (poll p.1) p.2) := by
  intro tiles
  induction tiles with
  | nil => intro idx film; simp [parallelFor]
  | cons t rest ih =>
    intro idx film
    simp only [parallelFor, ih, (tileBody_eq I sc (poll idx) t film).1, List.enumFrom_cons,
      List.flatMap_cons, List.append_assoc]

/-- Whatever the fuel, the film after `render` is the film before it followed by the samples
of the tiles of some list: the empty list while the enumeration loop is running. -/
theorem render_film_eq (fuel : Nat) (I : SamplerIntegrator) (sc : Scene)
    (poll : Nat → Nat → Bool) (film : Film) :
    ∃ tiles : List Point2i, (render fuel I sc poll film).film =
      film ++ (tiles.enumFrom 0).flatMap (fun p => tileSamples I sc (poll p.1) p.2) := by
  unfold render
  cases h : hilbertMapping I.d2xy (nTiles sc.imageDimension I.TileSize) fuel with
  | none => exact ⟨[], by simp [h]⟩
  | some tiles => exact ⟨tiles, by simp only [h, parallelFor_eq]⟩

theorem tileSamples_of_all_false (I : SamplerIntegrator) (sc : Scene) (poll : Nat → Bool)
    (t : Point2i) (h : ∀ k, poll k = false) : tileSamples I sc poll t = [] := by
  simp [tileSamples, leadingTrue_of_all_false poll h]

/-- C6: `scene.processContinuable()` is polled before each pixel of a tile, and the samples
a tile body adds to the film are exactly those of the pixels it visits before the first
poll answered `false`: nothing is added for the pixel whose poll was `false` nor for any
later pixel of that tile, and the film as it was, with the samples added before, is kept
unchanged in front. If every poll is answered `false`, `render` leaves the film exactly as
it was; in every case the film before `render` is an initial segment of the film after.
Both hold at every stage of the execution (for every fuel). -/
theorem render_cancellation (I : SamplerIntegrator) (sc : Scene) (poll : Nat → Nat → Bool)
    (film : Film) (idx : Nat) (t : Point2i) (fuel : Nat) :
    (tileBody I sc (poll idx) t film).film =
      film ++ ((tilePixels I.TileSize.toNat).take
        (leadingTrue (poll idx) (I.TileSize.toNat * I.TileSize.toNat) 0)).flatMap
          (pixelSamples I sc t) ∧
    (tileBody I sc (poll idx) t film).polls =
      min (leadingTrue (poll idx) (I.TileSize.toNat * I.TileSize.toNat) 0 + 1)
        (I.TileSize.toNat * I.TileSize.toNat) ∧
    (∀ k, k < leadingTrue (poll idx) (I.TileSize.toNat * I.TileSize.toNat) 0 →
      poll idx k = true) ∧
    (leadingTrue (poll idx) (I.TileSize.toNat * I.TileSize.toNat) 0 <
        I.TileSize.toNat * I.TileSize.toNat →
      poll idx (leadingTrue (poll idx) (I.TileSize.toNat * I.TileSize.toNat) 0) = false) ∧
    ((∀ i k, poll i k = false) → (render fuel I sc poll film).film = film) ∧
    film <+: (render fuel I sc poll film).film := by
  have hspec := leadingTrue_spec (poll idx) (I.TileSize.toNat * I.TileSize.toNat) 0
  simp only [Nat.zero_add] at hspec
  obtain ⟨tiles, hr⟩ := render_film_eq fuel I sc poll film
  refine ⟨(tileBody_eq I sc (poll idx) t film).1, (tileBody_eq I sc (poll idx) t film).2,
    hspec.1, hspec.2, ?_, ?_⟩
  · intro hfalse
    rw [hr]
    have : ∀ tiles : List Point2i, ∀ n, (tiles.enumFrom n).flatMap
        (fun p => tileSamples I sc (poll p.1) p.2) = [] := by
      intro tiles
      induction tiles with
      | nil => intro n; rfl
      | cons a l ih =>
        intro n
        simp only [List.enumFrom_cons, List.flatMap_cons, ih,
          tileSamples_of_all_false I sc (poll n) a (hfalse n), List.append_nil]
    rw [this, List.append_nil]
  · rw [hr]
    exact List.prefix_append _ _

/-- C6, witness: with every poll answered `false` the film `[d]` is left as it was. -/
theorem render_cancellation_witness :
    (render 10 (DirectLightingIntegrator (exampleWorld none 0) 16 2 (Flt.fin 10) d2xy)
      (exampleScene 20 10) (fun _ _ => false) [⟨7, 7, Spectrum.one, Flt.fin 1⟩]).film =
      [⟨7, 7, Spectrum.one, Flt.fin 1⟩] :=
  (render_cancellation (DirectLightingIntegrator (exampleWorld none 0) 16 2 (Flt.fin 10) d2xy)
    (exampleScene 20 10) (fun _ _ => false) [⟨7, 7, Spectrum.one, Flt.fin 1⟩] 0 ⟨0, 0⟩
    10).2.2.2.2.1 (fun _ _ => rfl)

/-! ### Counting the samples of a pixel -/

/-- C2, the code at the failing input: a 524288 x 1 film with tile edge 16. Whatever `spp`,
`L`, `d2xy`, the polls and the number of iterations run, `render` has not returned and has
added no sample to the film; the pixel `(0, 0)` has received none. -/
theorem render_never_completes (spp : Int) (maxRayIntensity : Flt)
    (L : RenderContext → Spectrum) (d2xy : Int → Int → Int × Int)
    (getRenderContext : Point2i → Nat → RenderContext) (poll : Nat → Nat → Bool)
    (film : Film) (fuel : Nat) :
    render fuel ⟨16, spp, maxRayIntensity, L, d2xy⟩ ⟨524288, 1, getRenderContext⟩ poll film =
      ⟨film, false⟩ ∧
    Film.samplesAt ((render fuel ⟨16, spp, maxRayIntensity, L, d2xy⟩
      ⟨524288, 1, getRenderContext⟩ poll film).film.drop film.length) 0 0 = 0 := by
  have hn : nTiles ⟨524288, 1⟩ 16 = ⟨32769, 1⟩ := by decide
  have hr : render fuel ⟨16, spp, maxRayIntensity, L, d2xy⟩ ⟨524288, 1, getRenderContext⟩
      poll film = ⟨film, false⟩ := by
    unfold render
    simp only [Scene.imageDimension]
    rw [hilbertMapping_of_wide_grid d2xy _ (by rw [hn]; decide) fuel]
  rw [hr]
  exact ⟨rfl, by simp [Film.samplesAt]⟩

/-! ### The samples that `render` adds -/

/-- Whatever the polls answer and at every stage of the execution, each sample that `render`
has added is the one that lines 138-141 build for some pixel and sample number. -/
theorem mem_render_depositOf (I : SamplerIntegrator) (sc : Scene) (poll : Nat → Nat → Bool)
    (fuel : Nat) (film : Film) (d : Deposit)
    (hmem : d ∈ (render fuel I sc poll film).film.drop film.length) :
    ∃ (x y : Int) (s : Nat), d = depositOf I sc x y s := by
  obtain ⟨tiles, hr⟩ := render_film_eq fuel I sc poll film
  rw [hr, List.drop_left, List.mem_flatMap] at hmem
  obtain ⟨p, _, hmem⟩ := hmem
  unfold tileSamples at hmem
  rw [List.mem_flatMap] at hmem
  obtain ⟨q, _, hmem⟩ := hmem
  obtain ⟨i, j⟩ := q
  rw [pixelSamples_eq] at hmem
  split at hmem
  · exact absurd hmem (List.not_mem_nil d)
  · rw [List.mem_map] at hmem
    obtain ⟨s, _, rfl⟩ := hmem
    exact ⟨_, _, s, rfl⟩

/-- With `maxRayIntensity ≥ 0`, every channel of every sample that `render` has added to the
film is finite and within `[0, maxRayIntensity]`. -/
theorem render_deposits_in_range (I : SamplerIntegrator) (sc : Scene)
    (poll : Nat → Nat → Bool) (fuel : Nat) (film : Film)
    (hm : Flt.le (Flt.fin 0) I.maxRayIntensity = true) (d : Deposit)
    (hmem : d ∈ (render fuel I sc poll film).film.drop film.length) (c : Flt)
    (hc : c ∈ d.Li.channels) : InRange c I.maxRayIntensity := by
  obtain ⟨x, y, s, rfl⟩ := mem_render_depositOf I sc poll fuel film d hmem
  simp only [depositOf, Spectrum.channels, clampRadiance, removeNaNs, List.mem_cons,
    List.mem_singleton, List.not_mem_nil, or_false] at hc
  rcases hc with rfl | rfl | rfl
  · exact clampChannel_sanitizeChannel_inRange _ _ hm
  · exact clampChannel_sanitizeChannel_inRange _ _ hm
  · exact clampChannel_sanitizeChannel_inRange _ _ hm

/-! ### The direct lighting integrator on a path without vertices -/

end Miyuki
